import Mathlib

/-!
Verification development for the fiber-placement core of a 3D RVE
(representative volume element) generation script.

The script's algorithmic core is embedded shallowly over the reals:

* configuration arithmetic of `create3DRVEModel` (fiber count, minimum
  distance, the invalid-configuration gate);
* the minimum-image periodic distance used by all pair scans;
* `_relax_coords_anchored` (anchored force relaxation, fuel 2000);
* `_final_check_and_enforce` (greedy worst-pair corrector, fuel 50000,
  fatal error modelled as `none`);
* the RSA seeder and the random filler (randomness is modelled as an
  explicit stream of unit-interval draws);
* `buildAllFiberCenters3D` (periodic mirror builder with tolerance
  de-duplication) and the inline mirror generation of Step 2 of
  `create3DRVEModel`;
* `classifyCellsImproved` (region classification; the external solid
  regions are modelled by their volume and an optional centroid, the
  two centroid fallbacks of the source collapsing into one `Option`);
* `pairBoundaryNodes3D` (greedy boundary-node pairing; Abaqus node
  object identity is modelled by the node label, which the source
  itself uses as the unique identity of a node).

Python floats are idealised as real numbers.  Python's `%` on floats
(sign of the divisor) is `fmod x L = x - L * ⌊x / L⌋`, and Python 2's
`int(round x)` (half away from zero) is `pyRound`.  A raised exception
is modelled as the `none` case of an `Option` result.
-/

open scoped Classical

noncomputable section

namespace RVE

/-- Python 2 `int(round(x))`: round half away from zero, then truncate
(the rounded value is integral, so truncation is the identity). -/
def pyRound (x : ℝ) : ℤ :=
  if 0 ≤ x then ⌊x + 1/2⌋ else -⌊-x + 1/2⌋

/-- `fiberArea = math.pi * fiberRadius ** 2` (source line 1074). -/
def fiberAreaOf (r : ℝ) : ℝ := Real.pi * r ^ 2

/-- `fiberCount = int(round((target_Vf * rveArea) / fiberArea))`
(source line 1075), with `rveArea = rveSize[0] * rveSize[1]`. -/
def fiberCountOf (Vf W H r : ℝ) : ℤ :=
  pyRound (Vf * (W * H) / fiberAreaOf r)

/-- `minDistance = minDistanceFactor * fiberRadius` (source line 1076). -/
def minDistanceOf (k r : ℝ) : ℝ := k * r

/-- Outcome of the configuration gate at the top of `create3DRVEModel`
(source lines 1086-1092): zero fibers, the invalid-configuration abort,
or entry into Stage 1 (RSA seeding, i.e. fiber placement begins). -/
inductive ConfigGate
  | zeroFibers
  | invalidConfig
  | proceed
deriving DecidableEq

/-- The branch structure `if fiberCount == 0: ... elif fiberArea >= rveArea:
Error ... else: placement` of `create3DRVEModel` (source lines 1086-1092). -/
def configGate (Vf W H r : ℝ) : ConfigGate :=
  if fiberCountOf Vf W H r = 0 then ConfigGate.zeroFibers
  else if W * H ≤ fiberAreaOf r then ConfigGate.invalidConfig
  else ConfigGate.proceed

/-- Minimum-image wrap of a coordinate delta, exactly as the source
writes it (e.g. lines 362-365): first subtract the extent if the delta
exceeds half the extent, then add it if below minus half the extent. -/
def wrapDelta (d L : ℝ) : ℝ :=
  let d1 := if L / 2 < d then d - L else d
  if d1 < -(L / 2) then d1 + L else d1

/-- Python `x % L` on floats (result carries the sign of the divisor). -/
def fmod (x L : ℝ) : ℝ := x - L * ⌊x / L⌋

/-- The pattern `math.sqrt(d) if d > 0 else 1e-9` (source lines 370, 464). -/
def safeDist (d : ℝ) : ℝ := if 0 < d then Real.sqrt d else 1e-9

/-- Membership in the half-open domain `[0, W) × [0, H)`. -/
def inDomain (W H : ℝ) (p : ℝ × ℝ) : Prop :=
  0 ≤ p.1 ∧ p.1 < W ∧ 0 ≤ p.2 ∧ p.2 < H

/-- The index pairs visited by `for i in range(n): for j in range(i+1, n)`. -/
def pairList (n : ℕ) : List (ℕ × ℕ) :=
  (List.range n).flatMap fun i =>
    ((List.range n).filter fun j => decide (i < j)).map fun j => (i, j)

/-- Wrapped x-delta `dx` of the pair `(i, j)` of the coordinate list. -/
def pairDx (W : ℝ) (cs : List (ℝ × ℝ)) (i j : ℕ) : ℝ :=
  wrapDelta ((cs.getD j (0, 0)).1 - (cs.getD i (0, 0)).1) W

/-- Wrapped y-delta `dy` of the pair `(i, j)` of the coordinate list. -/
def pairDy (H : ℝ) (cs : List (ℝ × ℝ)) (i j : ℕ) : ℝ :=
  wrapDelta ((cs.getD j (0, 0)).2 - (cs.getD i (0, 0)).2) H

/-- Squared minimum-image XY distance `dx*dx + dy*dy` of a pair. -/
def pairDistSq (W H : ℝ) (cs : List (ℝ × ℝ)) (i j : ℕ) : ℝ :=
  pairDx W cs i j * pairDx W cs i j + pairDy H cs i j * pairDy H cs i j

/-- The data the corrector's scan keeps about the current worst pair:
`(min_dist_sq_found, i, j, dx, dy)` (source lines 439-456). -/
structure ScanEntry where
  dsq : ℝ
  i : ℕ
  j : ℕ
  dx : ℝ
  dy : ℝ

/-- The scan entry of one concrete index pair. -/
def mkEntry (W H : ℝ) (cs : List (ℝ × ℝ)) (pr : ℕ × ℕ) : ScanEntry :=
  ⟨pairDistSq W H cs pr.1 pr.2, pr.1, pr.2,
   pairDx W cs pr.1 pr.2, pairDy H cs pr.1 pr.2⟩

/-- One step of the corrector's worst-pair scan: keep the entry with the
strictly smaller squared distance (`if dist_sq < min_dist_sq_found`,
source line 454); `none` plays the role of the initial `float('inf')`. -/
def scanStep (W H : ℝ) (cs : List (ℝ × ℝ))
    (acc : Option ScanEntry) (pr : ℕ × ℕ) : Option ScanEntry :=
  match acc with
  | none => some (mkEntry W H cs pr)
  | some a =>
      if (mkEntry W H cs pr).dsq < a.dsq then some (mkEntry W H cs pr)
      else some a

/-- The full worst-pair scan over all index pairs (source lines 442-456;
the final exhaustive scan of lines 490-506 computes this same minimum,
additionally counting violations for the error message only). -/
def scanWorst (W H : ℝ) (cs : List (ℝ × ℝ)) (n : ℕ) : Option ScanEntry :=
  (pairList n).foldl (scanStep W H cs) none

/-- The single-pair correction of the corrector (source lines 462-479):
push the worst pair apart by half the overlap plus `1e-8` along its
minimum-image delta, then wrap both points into the domain. -/
def correctPair (W H md : ℝ) (cs : List (ℝ × ℝ)) (e : ScanEntry) :
    List (ℝ × ℝ) :=
  let dist := safeDist e.dsq
  let moveDist := (md - dist) / 2 + 1e-8
  let mx := moveDist * (e.dx / dist)
  let my := moveDist * (e.dy / dist)
  let p := cs.getD e.i (0, 0)
  let cs1 := cs.set e.i (fmod (p.1 - mx) W, fmod (p.2 - my) H)
  let q := cs1.getD e.j (0, 0)
  cs1.set e.j (fmod (q.1 + mx) W, fmod (q.2 + my) H)

/-- The corrector's iteration (source lines 438-520), fuel-indexed.  At
positive fuel: scan; if the minimum over all pairs is at least
`minDistance²` return the list, otherwise correct the worst pair and
continue.  At fuel zero (cap exhausted): the final exhaustive scan, and
the fatal `raise` — modelled as `none` — when a violation remains. -/
def enforceLoop (W H md : ℝ) (n : ℕ) : ℕ → List (ℝ × ℝ) → Option (List (ℝ × ℝ))
  | 0, cs =>
      match scanWorst W H cs n with
      | none => some cs
      | some e => if e.dsq < md ^ 2 then none else some cs
  | f + 1, cs =>
      match scanWorst W H cs n with
      | none => some cs
      | some e =>
          if md ^ 2 ≤ e.dsq then some cs
          else enforceLoop W H md n f (correctPair W H md cs e)

/-- `_final_check_and_enforce` with its cap `max_correction_iter = 50000`
(source line 436). -/
def finalCheckAndEnforce (cs : List (ℝ × ℝ)) (n : ℕ) (W H md : ℝ) :
    Option (List (ℝ × ℝ)) :=
  enforceLoop W H md n 50000 cs

/-- One pair's contribution to the relaxer's force accumulation (source
lines 356-380): if the pair's squared minimum-image distance is below
`minDistance²`, push a force of magnitude `minDistance - dist` along the
pair's delta onto both endpoints of the pair. -/
def forceStep (W H md : ℝ) (cs : List (ℝ × ℝ))
    (F : List (ℝ × ℝ)) (pr : ℕ × ℕ) : List (ℝ × ℝ) :=
  let dx := pairDx W cs pr.1 pr.2
  let dy := pairDy H cs pr.1 pr.2
  let dsq := pairDistSq W H cs pr.1 pr.2
  if dsq < md ^ 2 then
    let dist := safeDist dsq
    let fx := (md - dist) * (dx / dist)
    let fy := (md - dist) * (dy / dist)
    let Fi := F.getD pr.1 (0, 0)
    let F1 := F.set pr.1 (Fi.1 - fx, Fi.2 - fy)
    let Fj := F1.getD pr.2 (0, 0)
    F1.set pr.2 (Fj.1 + fx, Fj.2 + fy)
  else F

/-- The net forces of one relaxation iteration: the pair loop of source
lines 354-380, starting from `net_forces = [[0.0, 0.0]] * n`. -/
def relaxForces (W H md : ℝ) (n : ℕ) (cs : List (ℝ × ℝ)) : List (ℝ × ℝ) :=
  (pairList n).foldl (forceStep W H md cs) (List.replicate n (0, 0))

/-- Per-point displacement of one relaxation iteration (source lines
386-393): force times `movement_factor = 0.5`, additionally damped by
`anchor_damping_factor = 0.05` for the first `seeding_count` points. -/
def relaxMove (a : ℕ) (F : List (ℝ × ℝ)) (i : ℕ) : ℝ × ℝ :=
  let f := F.getD i (0, 0)
  let m := (f.1 * 0.5, f.2 * 0.5)
  if i < a then (m.1 * 0.05, m.2 * 0.05) else m

/-- The coordinates after one relaxation iteration's move-and-wrap
(source lines 395-400): each coordinate is wrapped with `%` into the
domain. -/
def relaxNew (W H : ℝ) (a n : ℕ) (F : List (ℝ × ℝ)) (cs : List (ℝ × ℝ)) :
    List (ℝ × ℝ) :=
  (List.range n).map fun i =>
    let p := cs.getD i (0, 0)
    let mv := relaxMove a F i
    (fmod (p.1 + mv.1) W, fmod (p.2 + mv.2) H)

/-- `max_movement_sq` of one relaxation iteration (source lines 353,
402-404): running maximum, starting from `0.0`, of the squared
per-point displacements. -/
def relaxMaxMoveSq (a n : ℕ) (F : List (ℝ × ℝ)) : ℝ :=
  ((List.range n).map fun i =>
      let mv := relaxMove a F i
      mv.1 ^ 2 + mv.2 ^ 2).foldl (fun acc m => if acc < m then m else acc) 0

/-- The relaxer's iteration (source lines 352-415), fuel-indexed.  Each
iteration computes the net forces; if no point has any net force the
current coordinates are returned (`if not any(any(f) ...)`); otherwise
all points move and wrap, and the loop stops early when the largest
squared displacement falls below `(1e-6 * fiberRadius)²`.  At fuel zero
(cap reached) the current coordinates are returned as they are. -/
def relaxLoop (W H R md : ℝ) (a n : ℕ) : ℕ → List (ℝ × ℝ) → List (ℝ × ℝ)
  | 0, cs => cs
  | f + 1, cs =>
      let F := relaxForces W H md n cs
      if ∀ p ∈ F, p = ((0 : ℝ), (0 : ℝ)) then cs
      else
        let cs' := relaxNew W H a n F cs
        if relaxMaxMoveSq a n F < (1e-6 * R) ^ 2 then cs'
        else relaxLoop W H R md a n f cs'

/-- `_relax_coords_anchored` with its cap `max_iterations = 2000`
(source line 347). -/
def relaxCoordsAnchored (cs : List (ℝ × ℝ)) (a n : ℕ) (W H R md : ℝ) :
    List (ℝ × ℝ) :=
  relaxLoop W H R md a n 2000 cs

/-- The seeder's distance check against one already-placed anchor
(source lines 1104-1112): absolute deltas folded back by the extent. -/
def seedWrap (d L : ℝ) : ℝ :=
  let a := |d|
  if L / 2 < a then L - a else a

/-- `is_too_close` of the RSA seeder: some placed anchor is within
`minDistance` (in the minimum-image sense) of the candidate. -/
def isTooClose (W H md : ℝ) (placed : List (ℝ × ℝ)) (x y : ℝ) : Prop :=
  ∃ c ∈ placed,
    seedWrap (x - c.1) W * seedWrap (x - c.1) W +
      seedWrap (y - c.2) H * seedWrap (y - c.2) H < md ^ 2

/-- One seeded point's attempt loop (source lines 1099-1117), fuel being
`rsa_max_attempts = 500`.  Randomness is an explicit stream `g` of draws
in the unit square; `rd.uniform(0, L)` is `L` times a unit draw.  The
result carries the next unused stream index; `none` is the exhausted
attempt bound (the `placed = False` outcome). -/
def rsaAttempt (g : ℕ → ℝ × ℝ) (W H md : ℝ) (placed : List (ℝ × ℝ)) :
    ℕ → ℕ → Option ((ℝ × ℝ) × ℕ)
  | 0, _ => none
  | t + 1, k =>
      let x := (g k).1 * W
      let y := (g k).2 * H
      if isTooClose W H md placed x y then rsaAttempt g W H md placed t (k + 1)
      else some ((x, y), k + 1)

/-- The seeder's outer loop over the requested anchor count (source
lines 1097-1121): on a congested attempt (`not placed`) placement stops
early and whatever was placed is kept. -/
def rsaSeedLoop (g : ℕ → ℝ × ℝ) (W H md : ℝ) :
    ℕ → ℕ → List (ℝ × ℝ) → List (ℝ × ℝ) × ℕ
  | 0, k, acc => (acc, k)
  | c + 1, k, acc =>
      match rsaAttempt g W H md acc 500 k with
      | none => (acc, k)
      | some (p, k') => rsaSeedLoop g W H md c k' (acc ++ [p])

/-- Stage 2, the filler (source lines 1126-1133): unconstrained uniform
draws appended after the anchors. -/
def fillLoop (g : ℕ → ℝ × ℝ) (W H : ℝ) :
    ℕ → ℕ → List (ℝ × ℝ) → List (ℝ × ℝ)
  | 0, _, acc => acc
  | m + 1, k, acc => fillLoop g W H m (k + 1) (acc ++ [((g k).1 * W, (g k).2 * H)])

/-- The placement pipeline of `create3DRVEModel` (source lines
1093-1150): Seeder, Filler, Relaxer, Corrector.  `sc` is the requested
seeding count and `n` the fiber count; the corrector's fatal error is
the `none` outcome. -/
def generatePlacement (g : ℕ → ℝ × ℝ) (W H R md : ℝ) (sc n : ℕ) :
    Option (List (ℝ × ℝ)) :=
  let seeded := rsaSeedLoop g W H md sc 0 []
  let initial := fillLoop g W H (n - seeded.1.length) seeded.2 seeded.1
  let relaxed := relaxCoordsAnchored initial seeded.1.length n W H R md
  finalCheckAndEnforce relaxed n W H md

/-- The per-point mirror candidates of `buildAllFiberCenters3D` (source
lines 709-750), in source order: the original, the four edge mirrors,
and the four diagonal corner mirrors, a corner mirror requiring both
edge proximities and Euclidean distance below `radius` to the corner
vertex. -/
def mirrorCandidates (W H r : ℝ) (p : ℝ × ℝ) : List (ℝ × ℝ) :=
  [p]
    ++ (if p.1 < r then [(p.1 + W, p.2)] else [])
    ++ (if W - r < p.1 then [(p.1 - W, p.2)] else [])
    ++ (if p.2 < r then [(p.1, p.2 + H)] else [])
    ++ (if H - r < p.2 then [(p.1, p.2 - H)] else [])
    ++ (if p.1 < r ∧ p.2 < r ∧ Real.sqrt (p.1 ^ 2 + p.2 ^ 2) < r then
          [(p.1 + W, p.2 + H)] else [])
    ++ (if p.1 < r ∧ H - r < p.2 ∧ Real.sqrt (p.1 ^ 2 + (H - p.2) ^ 2) < r then
          [(p.1 + W, p.2 - H)] else [])
    ++ (if W - r < p.1 ∧ H - r < p.2 ∧
          Real.sqrt ((W - p.1) ^ 2 + (H - p.2) ^ 2) < r then
          [(p.1 - W, p.2 - H)] else [])
    ++ (if W - r < p.1 ∧ p.2 < r ∧ Real.sqrt ((W - p.1) ^ 2 + p.2 ^ 2) < r then
          [(p.1 - W, p.2 + H)] else [])

/-- The tolerance-based de-duplication of `buildAllFiberCenters3D`
(source lines 752-763): keep a candidate unless both coordinates are
within `1e-6` of an already-kept center. -/
def dedupLoop : List (ℝ × ℝ) → List (ℝ × ℝ) → List (ℝ × ℝ)
  | [], acc => acc
  | c :: rest, acc =>
      if ∃ e ∈ acc, |c.1 - e.1| < 1e-6 ∧ |c.2 - e.2| < 1e-6 then
        dedupLoop rest acc
      else dedupLoop rest (acc ++ [c])

/-- `buildAllFiberCenters3D` (source lines 689-765). -/
def buildAllFiberCenters3D (centers : List (ℝ × ℝ)) (W H r : ℝ) :
    List (ℝ × ℝ) :=
  dedupLoop (centers.flatMap (mirrorCandidates W H r)) []

/-- The per-point mirror candidates of the inline Step 2 mirror
generation of `create3DRVEModel` (source lines 1176-1195), in source
order: identical edge mirrors, but the diagonal corner mirrors require
only proximity to both edges (no corner-vertex distance check). -/
def step2Candidates (W H r : ℝ) (p : ℝ × ℝ) : List (ℝ × ℝ) :=
  [p]
    ++ (if p.1 < r then [(p.1 + W, p.2)] else [])
    ++ (if W - r < p.1 then [(p.1 - W, p.2)] else [])
    ++ (if p.2 < r then [(p.1, p.2 + H)] else [])
    ++ (if H - r < p.2 then [(p.1, p.2 - H)] else [])
    ++ (if p.1 < r ∧ H - r < p.2 then [(p.1 + W, p.2 - H)] else [])
    ++ (if p.1 < r ∧ p.2 < r then [(p.1 + W, p.2 + H)] else [])
    ++ (if W - r < p.1 ∧ H - r < p.2 then [(p.1 - W, p.2 - H)] else [])
    ++ (if W - r < p.1 ∧ p.2 < r then [(p.1 - W, p.2 + H)] else [])

/-- Lexicographic insertion, implementing the ascending tuple order of
Python's `sorted` on coordinate pairs. -/
def insertLex (q : ℝ × ℝ) : List (ℝ × ℝ) → List (ℝ × ℝ)
  | [] => [q]
  | x :: xs =>
      if q.1 < x.1 ∨ (q.1 = x.1 ∧ q.2 ≤ x.2) then q :: x :: xs
      else x :: insertLex q xs

/-- Python's `sorted` of a list of coordinate pairs. -/
def sortLex (l : List (ℝ × ℝ)) : List (ℝ × ℝ) := l.foldr insertLex []

/-- Python's `sorted(list(set(...)))` (source line 1197): exact
de-duplication followed by the lexicographic sort. -/
def pySortedSet (l : List (ℝ × ℝ)) : List (ℝ × ℝ) := sortLex l.dedup

/-- The full Step 2 mirror coordinate list (`xCoords`/`yCoords` zipped,
source lines 1174-1201). -/
def step2Mirrors (centers : List (ℝ × ℝ)) (W H r : ℝ) : List (ℝ × ℝ) :=
  centers.flatMap fun c => pySortedSet (step2Candidates W H r c)

/-- An external solid region as the classifier sees it: a volume
(`getSize()`) and an optional centroid; the source's two centroid
fallbacks (`getCentroid()`, then vertex averaging) collapse into one
optional query, `none` meaning both failed. -/
structure Region where
  size : ℝ
  centroid : Option (ℝ × ℝ × ℝ)

/-- Stable descending insertion by volume: a region moves past exactly
the strictly larger ones, reproducing Python's stable
`sorted(key=getSize, reverse=True)` (source line 843). -/
def insertVolDesc (c : Region) : List Region → List Region
  | [] => [c]
  | x :: xs => if c.size < x.size then x :: insertVolDesc c xs else c :: x :: xs

/-- `sorted(all_cells, key=lambda c: c.getSize(), reverse=True)`. -/
def sortVolDesc (cells : List Region) : List Region :=
  cells.foldr insertVolDesc []

/-- Minimum planar XY distance from a centroid to any mirrored center
(source lines 922-928); `none` is the initial `float('inf')`. -/
def minMirrorDist (mirrors : List (ℝ × ℝ)) (cx cy : ℝ) : Option ℝ :=
  mirrors.foldl
    (fun acc fc =>
      let d := Real.sqrt ((cx - fc.1) ^ 2 + (cy - fc.2) ^ 2)
      match acc with
      | none => some d
      | some m => if d < m then some d else some m)
    none

/-- The per-region loop of the general classification branch (source
lines 893-937): a region with no obtainable centroid is fatal (`none`);
otherwise it is labeled fiber when its minimum planar distance to a
mirrored center is below `radius`, matrix fragment otherwise. -/
def classifyLoop (mirrors : List (ℝ × ℝ)) (r : ℝ) :
    List Region → Option (List Region × List Region)
  | [] => some ([], [])
  | c :: rest =>
      match c.centroid with
      | none => none
      | some ctr =>
          match classifyLoop mirrors r rest with
          | none => none
          | some (fs, ms) =>
              match minMirrorDist mirrors ctr.1 ctr.2.1 with
              | none => some (fs, c :: ms)
              | some m => if m < r then some (c :: fs, ms) else some (fs, c :: ms)

/-- `classifyCellsImproved` (source lines 813-973).  The largest-volume
region is the primary matrix; fewer remaining regions than mirrored
centers is the fatal count anomaly (`none`); exactly equal counts label
all remaining regions fiber with no per-region geometry; otherwise the
per-region loop runs.  `vol` (the RVE volume) only feeds the non-fatal
volume-fraction warning and does not affect the result. -/
def classifyCellsImproved (cells : List Region) (fibers : List (ℝ × ℝ))
    (W H r vol : ℝ) : Option (List Region × List Region) :=
  match sortVolDesc cells with
  | [] => none
  | main :: potential =>
      let mirrors := buildAllFiberCenters3D fibers W H r
      if potential.length < mirrors.length then none
      else if potential.length = mirrors.length then some (potential, [main])
      else
        match classifyLoop mirrors r potential with
        | none => none
        | some (fs, ms) => some (fs, main :: ms)

/-- A boundary node: Abaqus node objects are identified by their unique
`label` (which the source itself uses to name the node sets) and carry a
3D coordinate triple. -/
structure Node where
  label : ℕ
  coords : ℝ × ℝ × ℝ

/-- Tuple indexing `node.coordinates[idx]` for `idx` in `{0, 1, 2}`. -/
def Node.coord (nd : Node) : ℕ → ℝ
  | 0 => nd.coords.1
  | 1 => nd.coords.2.1
  | _ => nd.coords.2.2

/-- The in-plane distance of `pairBoundaryNodes3D` (source lines
251-254): absolute per-index deltas, then the 2D Euclidean norm. -/
def planarDist (s m : Node) (i1 i2 : ℕ) : ℝ :=
  Real.sqrt (|s.coord i1 - m.coord i1| ^ 2 + |s.coord i2 - m.coord i2| ^ 2)

/-- One step of the master-pool scan (source lines 248-258): a master
node becomes the best match when its planar distance is below the
tolerance and below the current minimum (initially `float('inf')`,
played by `none`). -/
def bestStep (s : Node) (tol : ℝ) (i1 i2 : ℕ)
    (acc : Option (Node × ℝ)) (m : Node) : Option (Node × ℝ) :=
  let d := planarDist s m i1 i2
  match acc with
  | none => if d < tol then some (m, d) else none
  | some b => if d < tol ∧ d < b.2 then some (m, d) else some b

/-- The full scan of the remaining master pool for one slave node. -/
def findBest (s : Node) (pool : List Node) (tol : ℝ) (i1 i2 : ℕ) :
    Option (Node × ℝ) :=
  pool.foldl (bestStep s tol i1 i2) none

/-- Python's `master_pool.remove(best_match_node)`: remove the first
pool entry that is the matched node (identified by its label). -/
def removeNode : List Node → ℕ → List Node
  | [], _ => []
  | x :: xs, lbl => if x.label = lbl then xs else x :: removeNode xs lbl

/-- The slave iteration of `pairBoundaryNodes3D` (source lines 243-262):
each slave takes the closest qualifying master, which is then removed
from the pool; a slave with no qualifying master is left unmatched. -/
def pairLoop (tol : ℝ) (i1 i2 : ℕ) :
    List Node → List Node → List (Node × Node)
  | [], _ => []
  | s :: ss, pool =>
      match findBest s pool tol i1 i2 with
      | none => pairLoop tol i1 i2 ss pool
      | some b => (s, b.1) :: pairLoop tol i1 i2 ss (removeNode pool b.1.label)

/-- `pairBoundaryNodes3D` (source lines 221-264). -/
def pairBoundaryNodes3D (slaves masters : List Node) (tol : ℝ)
    (idx : ℕ × ℕ) : List (Node × Node) :=
  pairLoop tol idx.1 idx.2 slaves masters

theorem pyRound_eq_of_bounds (x : ℝ) (n : ℤ) (h0 : 0 ≤ x)
    (h1 : (n : ℝ) ≤ x + 1 / 2) (h2 : x + 1 / 2 < n + 1) : pyRound x = n := by
  unfold pyRound
  rw [if_pos h0]
  exact Int.floor_eq_iff.mpr ⟨h1, h2⟩

/-- Claim C3: the generated fiber count is `round(target_Vf * W * H /
(pi * fiberRadius^2))` and the minimum distance is
`minDistanceFactor * fiberRadius`; in Scenario A (`W = H = 10`,
`radius = 1`, `minDistanceFactor = 2.1`, `target_Vf = 0.3`) the count is
`10` and the minimum distance is `2.1`. -/
theorem C3_fiber_count_and_min_distance :
    (∀ Vf W H r k : ℝ,
        fiberCountOf Vf W H r = pyRound (Vf * W * H / (Real.pi * r ^ 2)) ∧
        minDistanceOf k r = k * r) ∧
    fiberCountOf 0.3 10 10 1 = 10 ∧ minDistanceOf 2.1 1 = 2.1 := by
  have hπ : (0 : ℝ) < Real.pi := Real.pi_pos
  refine ⟨fun Vf W H r k => ⟨by unfold fiberCountOf fiberAreaOf; ring_nf, rfl⟩, ?_, by norm_num [minDistanceOf]⟩
  have hx : (0.3 : ℝ) * (10 * 10) / fiberAreaOf 1 = 30 / Real.pi := by
    unfold fiberAreaOf; norm_num
  unfold fiberCountOf
  rw [hx]
  refine pyRound_eq_of_bounds _ 10 (by positivity) ?_ ?_
  · have h : (9.5 : ℝ) ≤ 30 / Real.pi := by
      rw [le_div_iff₀ hπ]
      nlinarith [Real.pi_lt_d6]
    push_cast
    linarith
  · have h : 30 / Real.pi < (10.5 : ℝ) := by
      rw [div_lt_iff₀ hπ]
      nlinarith [Real.pi_gt_d6]
    push_cast
    linarith

/-- Claim C2, counterexample: with `target_Vf = 2`, `W = H = 10`,
`radius = 1` the total fiber area `fiberArea * fiberCount = 64·pi`
is at least the domain area `100`, yet the configuration gate proceeds
to fiber placement instead of reporting the invalid-configuration
error (the source only compares a single fiber's area to the domain
area). -/
theorem C2_counterexample :
    (10 * 10 : ℝ) ≤ fiberAreaOf 1 * (fiberCountOf 2 10 10 1 : ℝ) ∧
    configGate 2 10 10 1 = ConfigGate.proceed := by
  have hπ : (0 : ℝ) < Real.pi := Real.pi_pos
  have hcount : fiberCountOf 2 10 10 1 = 64 := by
    have hx : (2 : ℝ) * (10 * 10) / fiberAreaOf 1 = 200 / Real.pi := by
      unfold fiberAreaOf; norm_num
    unfold fiberCountOf
    rw [hx]
    refine pyRound_eq_of_bounds _ 64 (by positivity) ?_ ?_
    · have h : (63.5 : ℝ) ≤ 200 / Real.pi := by
        rw [le_div_iff₀ hπ]
        nlinarith [Real.pi_lt_d6]
      push_cast
      linarith
    · have h : 200 / Real.pi < (64.5 : ℝ) := by
        rw [div_lt_iff₀ hπ]
        nlinarith [Real.pi_gt_d6]
      push_cast
      linarith
  constructor
  · rw [hcount]
    unfold fiberAreaOf
    push_cast
    nlinarith [Real.pi_gt_d6]
  · unfold configGate
    rw [if_neg (by rw [hcount]; decide)]
    rw [if_neg (by unfold fiberAreaOf; nlinarith [Real.pi_lt_d6])]

theorem mem_pairList {n i j : ℕ} : (i, j) ∈ pairList n ↔ i < j ∧ j < n := by
  simp only [pairList, List.mem_flatMap, List.mem_map, List.mem_filter,
    List.mem_range, decide_eq_true_eq, Prod.mk.injEq]
  constructor
  · rintro ⟨a, _, b, ⟨hb, hab⟩, rfl, rfl⟩
    exact ⟨hab, hb⟩
  · rintro ⟨hij, hj⟩
    exact ⟨i, lt_trans hij hj, j, ⟨hj, hij⟩, rfl, rfl⟩

theorem scanStep_some (W H : ℝ) (cs : List (ℝ × ℝ))
    (acc : Option ScanEntry) (pr : ℕ × ℕ) :
    ∃ e, scanStep W H cs acc pr = some e ∧
      e.dsq ≤ (mkEntry W H cs pr).dsq ∧
      (∀ a, acc = some a → e.dsq ≤ a.dsq ∧ (e = a ∨ e = mkEntry W H cs pr)) ∧
      (acc = none → e = mkEntry W H cs pr) := by
  cases acc with
  | none =>
      refine ⟨mkEntry W H cs pr, rfl, le_refl _, ?_, fun _ => rfl⟩
      intro a ha
      exact Option.noConfusion ha
  | some a =>
      by_cases h : (mkEntry W H cs pr).dsq < a.dsq
      · refine ⟨mkEntry W H cs pr, ?_, le_refl _, ?_, fun hn => Option.noConfusion hn⟩
        · simp [scanStep, h]
        · intro b hb
          obtain rfl : a = b := by injection hb
          exact ⟨le_of_lt h, Or.inr rfl⟩
      · refine ⟨a, ?_, le_of_not_lt h, ?_, fun hn => Option.noConfusion hn⟩
        · simp [scanStep, h]
        · intro b hb
          obtain rfl : a = b := by injection hb
          exact ⟨le_refl _, Or.inl rfl⟩

theorem scanFold_min (W H : ℝ) (cs : List (ℝ × ℝ)) :
    ∀ (l : List (ℕ × ℕ)) (acc : Option ScanEntry) (e : ScanEntry),
      l.foldl (scanStep W H cs) acc = some e →
      (∀ pr ∈ l, e.dsq ≤ (mkEntry W H cs pr).dsq) ∧
      (∀ a, acc = some a → e.dsq ≤ a.dsq) := by
  intro l
  induction l with
  | nil =>
      intro acc e h
      refine ⟨by simp, ?_⟩
      rintro a rfl
      simp only [List.foldl_nil] at h
      cases h
      exact le_refl _
  | cons pr rest ih =>
      intro acc e h
      obtain ⟨e1, hstep, hle, hacc, -⟩ := scanStep_some W H cs acc pr
      simp only [List.foldl_cons, hstep] at h
      obtain ⟨hrest, hfrom⟩ := ih (some e1) e h
      have he1 : e.dsq ≤ e1.dsq := hfrom e1 rfl
      refine ⟨?_, ?_⟩
      · intro q hq
        rcases List.mem_cons.mp hq with rfl | hq'
        · exact le_trans he1 hle
        · exact hrest q hq'
      · rintro a rfl
        exact le_trans he1 (hacc a rfl).1

theorem scanFold_provenance (W H : ℝ) (cs : List (ℝ × ℝ)) :
    ∀ (l : List (ℕ × ℕ)) (acc : Option ScanEntry) (e : ScanEntry),
      l.foldl (scanStep W H cs) acc = some e →
      acc = some e ∨ ∃ pr ∈ l, e = mkEntry W H cs pr := by
  intro l
  induction l with
  | nil =>
      intro acc e h
      simp only [List.foldl_nil] at h
      exact Or.inl h
  | cons pr rest ih =>
      intro acc e h
      obtain ⟨e1, hstep, -, hacc, hnone⟩ := scanStep_some W H cs acc pr
      simp only [List.foldl_cons, hstep] at h
      rcases ih (some e1) e h with h1 | ⟨q, hq, rfl⟩
      · cases h1
        cases acc with
        | none => exact Or.inr ⟨pr, List.mem_cons_self _ _, hnone rfl⟩
        | some a =>
            rcases (hacc a rfl).2 with rfl | rfl
            · exact Or.inl rfl
            · exact Or.inr ⟨pr, List.mem_cons_self _ _, rfl⟩
      · exact Or.inr ⟨q, List.mem_cons_of_mem _ hq, rfl⟩

theorem scanFold_ne_none (W H : ℝ) (cs : List (ℝ × ℝ))
    (l2 : List (ℕ × ℕ)) :
    ∀ e1 : ScanEntry, l2.foldl (scanStep W H cs) (some e1) ≠ none := by
  induction l2 with
  | nil => intro e1; simp
  | cons q rest ih =>
      intro e1
      obtain ⟨e2, hstep2, -, -, -⟩ := scanStep_some W H cs (some e1) q
      simp only [List.foldl_cons, hstep2]
      exact ih e2

theorem scanWorst_ne_none (W H : ℝ) (cs : List (ℝ × ℝ)) {n : ℕ}
    {pr : ℕ × ℕ} (h : pr ∈ pairList n) : scanWorst W H cs n ≠ none := by
  unfold scanWorst
  obtain ⟨l1, l2, hsplit⟩ := List.append_of_mem h
  rw [hsplit, List.foldl_append]
  obtain ⟨e1, hstep, -, -, -⟩ :=
    scanStep_some W H cs (l1.foldl (scanStep W H cs) none) pr
  simp only [List.foldl_cons, hstep]
  exact scanFold_ne_none W H cs l2 e1

theorem mkEntry_dsq (W H : ℝ) (cs : List (ℝ × ℝ)) (pr : ℕ × ℕ) :
    (mkEntry W H cs pr).dsq = pairDistSq W H cs pr.1 pr.2 := rfl

theorem enforceLoop_zero_none (W H md : ℝ) (n : ℕ) (cs : List (ℝ × ℝ))
    (hs : scanWorst W H cs n = none) : enforceLoop W H md n 0 cs = some cs := by
  rw [enforceLoop, hs]

theorem enforceLoop_zero_some (W H md : ℝ) (n : ℕ) (cs : List (ℝ × ℝ))
    (e : ScanEntry) (hs : scanWorst W H cs n = some e) :
    enforceLoop W H md n 0 cs =
      if e.dsq < md ^ 2 then none else some cs := by
  rw [enforceLoop, hs]

theorem enforceLoop_succ_none (W H md : ℝ) (n f : ℕ) (cs : List (ℝ × ℝ))
    (hs : scanWorst W H cs n = none) :
    enforceLoop W H md n (f + 1) cs = some cs := by
  rw [enforceLoop, hs]

theorem enforceLoop_succ_some (W H md : ℝ) (n f : ℕ) (cs : List (ℝ × ℝ))
    (e : ScanEntry) (hs : scanWorst W H cs n = some e) :
    enforceLoop W H md n (f + 1) cs =
      if md ^ 2 ≤ e.dsq then some cs
      else enforceLoop W H md n f (correctPair W H md cs e) := by
  rw [enforceLoop, hs]

theorem enforceLoop_sound (W H md : ℝ) (n : ℕ) :
    ∀ (f : ℕ) (cs out : List (ℝ × ℝ)),
      enforceLoop W H md n f cs = some out →
      ∀ pr ∈ pairList n, md ^ 2 ≤ pairDistSq W H out pr.1 pr.2 := by
  intro f
  induction f with
  | zero =>
      intro cs out h pr hpr
      cases hs : scanWorst W H cs n with
      | none => exact absurd hs (scanWorst_ne_none W H cs hpr)
      | some e =>
          rw [enforceLoop_zero_some W H md n cs e hs] at h
          by_cases hv : e.dsq < md ^ 2
          · simp [hv] at h
          · rw [if_neg hv] at h
            cases h
            have := (scanFold_min W H cs (pairList n) none e hs).1 pr hpr
            rw [mkEntry_dsq] at this
            exact le_trans (le_of_not_lt hv) this
  | succ f ih =>
      intro cs out h pr hpr
      cases hs : scanWorst W H cs n with
      | none => exact absurd hs (scanWorst_ne_none W H cs hpr)
      | some e =>
          rw [enforceLoop_succ_some W H md n f cs e hs] at h
          by_cases hv : md ^ 2 ≤ e.dsq
          · rw [if_pos hv] at h
            cases h
            have := (scanFold_min W H cs (pairList n) none e hs).1 pr hpr
            rw [mkEntry_dsq] at this
            exact le_trans hv this
          · rw [if_neg hv] at h
            exact ih _ out h pr hpr

/-- Claim C1: if the Corrector returns a coordinate list, every pair of
returned points has squared minimum-image XY distance at least
`minDistance²`; and if at the end of the iteration cap the final
exhaustive scan still finds a violating pair, the Corrector raises
(returns `none`) instead of returning coordinates. -/
theorem C1_corrector_enforces_min_distance (cs out : List (ℝ × ℝ))
    (n : ℕ) (W H md : ℝ) :
    (finalCheckAndEnforce cs n W H md = some out →
      ∀ pr ∈ pairList n, md ^ 2 ≤ pairDistSq W H out pr.1 pr.2) ∧
    (∀ cs' : List (ℝ × ℝ),
      (∃ pr ∈ pairList n, pairDistSq W H cs' pr.1 pr.2 < md ^ 2) →
      enforceLoop W H md n 0 cs' = none) := by
  constructor
  · intro h
    exact enforceLoop_sound W H md n 50000 cs out h
  · rintro cs' ⟨pr, hpr, hviol⟩
    cases hs : scanWorst W H cs' n with
    | none => exact absurd hs (scanWorst_ne_none W H cs' hpr)
    | some e =>
        have hle := (scanFold_min W H cs' (pairList n) none e hs).1 pr hpr
        rw [mkEntry_dsq] at hle
        have hlt : e.dsq < md ^ 2 := lt_of_le_of_lt hle hviol
        rw [enforceLoop_zero_some W H md n cs' e hs, if_pos hlt]

/-- Witness for C1: a two-point list at distance `5` passes the
corrector untouched (and indeed satisfies `minDistance² = 4`), while a
two-point list at distance `1` hitting the exhausted cap makes the
corrector raise. -/
theorem C1_corrector_enforces_min_distance_witness :
    (2 : ℝ) ^ 2 ≤ pairDistSq 10 10 [((0 : ℝ), (0 : ℝ)), ((5 : ℝ), (0 : ℝ))] 0 1 ∧
    enforceLoop 10 10 2 2 0 [((0 : ℝ), (0 : ℝ)), ((1 : ℝ), (0 : ℝ))] = none := by
  have hpl : pairList 2 = [(0, 1)] := by decide
  have hmem : ((0, 1) : ℕ × ℕ) ∈ pairList 2 := by
    rw [hpl]
    exact List.mem_singleton_self _
  have hd1 : pairDistSq 10 10 [((0 : ℝ), (0 : ℝ)), ((5 : ℝ), (0 : ℝ))] 0 1 = 25 := by
    unfold pairDistSq pairDx pairDy wrapDelta
    norm_num [List.getD]
  have hsw1 : scanWorst 10 10 [((0 : ℝ), (0 : ℝ)), ((5 : ℝ), (0 : ℝ))] 2 =
      some (mkEntry 10 10 [((0 : ℝ), (0 : ℝ)), ((5 : ℝ), (0 : ℝ))] (0, 1)) := by
    unfold scanWorst
    rw [hpl]
    rfl
  have h1 : finalCheckAndEnforce [((0 : ℝ), (0 : ℝ)), ((5 : ℝ), (0 : ℝ))] 2 10 10 2 =
      some [((0 : ℝ), (0 : ℝ)), ((5 : ℝ), (0 : ℝ))] := by
    unfold finalCheckAndEnforce
    rw [show (50000 : ℕ) = 49999 + 1 from rfl,
      enforceLoop_succ_some 10 10 2 2 49999 _ _ hsw1, if_pos]
    rw [mkEntry_dsq, hd1]
    norm_num
  have hd2 : pairDistSq 10 10 [((0 : ℝ), (0 : ℝ)), ((1 : ℝ), (0 : ℝ))] 0 1 = 1 := by
    unfold pairDistSq pairDx pairDy wrapDelta
    norm_num [List.getD]
  have h2 : ∃ pr ∈ pairList 2,
      pairDistSq 10 10 [((0 : ℝ), (0 : ℝ)), ((1 : ℝ), (0 : ℝ))] pr.1 pr.2 < (2 : ℝ) ^ 2 := by
    refine ⟨(0, 1), hmem, ?_⟩
    rw [hd2]
    norm_num
  constructor
  · have := (C1_corrector_enforces_min_distance
      [((0 : ℝ), (0 : ℝ)), ((5 : ℝ), (0 : ℝ))] [((0 : ℝ), (0 : ℝ)), ((5 : ℝ), (0 : ℝ))]
      2 10 10 2).1 h1 (0, 1) hmem
    exact this
  · exact (C1_corrector_enforces_min_distance [] [] 2 10 10 2).2 _ h2

theorem getD_set_self (l : List (ℝ × ℝ)) (i : ℕ) (a d : ℝ × ℝ)
    (h : i < l.length) : (l.set i a).getD i d = a := by
  rw [List.getD_eq_getElem?_getD, List.getElem?_set_self']
  simp [List.getElem?_eq_getElem h]

theorem getD_set_ne (l : List (ℝ × ℝ)) (i k : ℕ) (a d : ℝ × ℝ)
    (h : i ≠ k) : (l.set i a).getD k d = l.getD k d := by
  rw [List.getD_eq_getElem?_getD, List.getElem?_set_ne h,
    List.getD_eq_getElem?_getD]

/-- Claim C7: a corrector iteration that performs a correction modifies
exactly the two points of the worst violating pair — each is displaced
by `(minDistance - dist)/2 + 1e-8` along the pair's minimum-image delta
scaled by `1/dist`, then wrapped into the domain — while every other
point and the list length are unchanged, and the iteration then
proceeds with the corrected list. -/
theorem C7_single_pair_correction_frame (W H md : ℝ) (n f : ℕ)
    (cs : List (ℝ × ℝ)) (e : ScanEntry)
    (hs : scanWorst W H cs n = some e) (hv : e.dsq < md ^ 2)
    (hn : cs.length = n) :
    enforceLoop W H md n (f + 1) cs =
      enforceLoop W H md n f (correctPair W H md cs e) ∧
    (correctPair W H md cs e).length = cs.length ∧
    (∀ k, k ≠ e.i → k ≠ e.j →
      (correctPair W H md cs e).getD k (0, 0) = cs.getD k (0, 0)) ∧
    (correctPair W H md cs e).getD e.i (0, 0) =
      (fmod ((cs.getD e.i (0, 0)).1 -
          ((md - safeDist e.dsq) / 2 + 1e-8) * (e.dx / safeDist e.dsq)) W,
       fmod ((cs.getD e.i (0, 0)).2 -
          ((md - safeDist e.dsq) / 2 + 1e-8) * (e.dy / safeDist e.dsq)) H) ∧
    (correctPair W H md cs e).getD e.j (0, 0) =
      (fmod ((cs.getD e.j (0, 0)).1 +
          ((md - safeDist e.dsq) / 2 + 1e-8) * (e.dx / safeDist e.dsq)) W,
       fmod ((cs.getD e.j (0, 0)).2 +
          ((md - safeDist e.dsq) / 2 + 1e-8) * (e.dy / safeDist e.dsq)) H) := by
  have hprov := scanFold_provenance W H cs (pairList n) none e hs
  rcases hprov with h0 | ⟨pr, hpr, he⟩
  · exact Option.noConfusion h0
  have hij : pr.1 < pr.2 ∧ pr.2 < n := by
    have := hpr
    rw [show pr = (pr.1, pr.2) from rfl, mem_pairList] at this
    exact this
  have hei : e.i = pr.1 := by rw [he]; rfl
  have hej : e.j = pr.2 := by rw [he]; rfl
  have hij' : e.i ≠ e.j := by
    rw [hei, hej]
    exact Nat.ne_of_lt hij.1
  have hjlen : e.j < cs.length := by
    rw [hej, hn]
    exact hij.2
  have hilen : e.i < cs.length := by
    rw [hei, hn]
    exact lt_trans hij.1 hij.2
  refine ⟨?_, ?_, ?_, ?_, ?_⟩
  · rw [enforceLoop_succ_some W H md n f cs e hs, if_neg (not_le.mpr hv)]
  · simp [correctPair]
  · intro k hki hkj
    simp only [correctPair]
    rw [getD_set_ne _ _ _ _ _ (Ne.symm hkj), getD_set_ne _ _ _ _ _ (Ne.symm hki)]
  · simp only [correctPair]
    rw [getD_set_ne _ _ _ _ _ (Ne.symm hij'),
      getD_set_self _ _ _ _ hilen]
  · simp only [correctPair]
    rw [getD_set_self _ _ _ _ (by simpa using hjlen),
      getD_set_ne _ _ _ _ _ hij']

/-- Witness for C7: the two-point list at distance `1` with
`minDistance = 3` has worst pair `(0, 1)`; the corrector iteration
corrects exactly that pair and recurses, preserving the length. -/
theorem C7_single_pair_correction_frame_witness :
    enforceLoop 10 10 3 2 1 [((0 : ℝ), (0 : ℝ)), ((1 : ℝ), (0 : ℝ))] =
      enforceLoop 10 10 3 2 0
        (correctPair 10 10 3 [((0 : ℝ), (0 : ℝ)), ((1 : ℝ), (0 : ℝ))]
          (mkEntry 10 10 [((0 : ℝ), (0 : ℝ)), ((1 : ℝ), (0 : ℝ))] (0, 1))) ∧
    (correctPair 10 10 3 [((0 : ℝ), (0 : ℝ)), ((1 : ℝ), (0 : ℝ))]
        (mkEntry 10 10 [((0 : ℝ), (0 : ℝ)), ((1 : ℝ), (0 : ℝ))] (0, 1))).length = 2 := by
  have hpl : pairList 2 = [(0, 1)] := by decide
  have hsw : scanWorst 10 10 [((0 : ℝ), (0 : ℝ)), ((1 : ℝ), (0 : ℝ))] 2 =
      some (mkEntry 10 10 [((0 : ℝ), (0 : ℝ)), ((1 : ℝ), (0 : ℝ))] (0, 1)) := by
    unfold scanWorst
    rw [hpl]
    rfl
  have hv : (mkEntry 10 10 [((0 : ℝ), (0 : ℝ)), ((1 : ℝ), (0 : ℝ))] (0, 1)).dsq <
      (3 : ℝ) ^ 2 := by
    rw [mkEntry_dsq]
    have : pairDistSq 10 10 [((0 : ℝ), (0 : ℝ)), ((1 : ℝ), (0 : ℝ))] 0 1 = 1 := by
      unfold pairDistSq pairDx pairDy wrapDelta
      norm_num [List.getD]
    rw [this]
    norm_num
  have h := C7_single_pair_correction_frame 10 10 3 2 0
    [((0 : ℝ), (0 : ℝ)), ((1 : ℝ), (0 : ℝ))] _ hsw hv rfl
  exact ⟨h.1, h.2.1⟩

theorem relaxLoop_zero (W H R md : ℝ) (a n : ℕ) (cs : List (ℝ × ℝ)) :
    relaxLoop W H R md a n 0 cs = cs := rfl

theorem relaxLoop_succ_noforce (W H R md : ℝ) (a n f : ℕ)
    (cs : List (ℝ × ℝ))
    (h : ∀ p ∈ relaxForces W H md n cs, p = ((0 : ℝ), (0 : ℝ))) :
    relaxLoop W H R md a n (f + 1) cs = cs := by
  simp only [relaxLoop]
  rw [if_pos h]

theorem relaxLoop_succ_converged (W H R md : ℝ) (a n f : ℕ)
    (cs : List (ℝ × ℝ))
    (hF : ¬∀ p ∈ relaxForces W H md n cs, p = ((0 : ℝ), (0 : ℝ)))
    (hm : relaxMaxMoveSq a n (relaxForces W H md n cs) < (1e-6 * R) ^ 2) :
    relaxLoop W H R md a n (f + 1) cs =
      relaxNew W H a n (relaxForces W H md n cs) cs := by
  simp only [relaxLoop]
  rw [if_neg hF, if_pos hm]

theorem relaxLoop_succ_continue (W H R md : ℝ) (a n f : ℕ)
    (cs : List (ℝ × ℝ))
    (hF : ¬∀ p ∈ relaxForces W H md n cs, p = ((0 : ℝ), (0 : ℝ)))
    (hm : ¬relaxMaxMoveSq a n (relaxForces W H md n cs) < (1e-6 * R) ^ 2) :
    relaxLoop W H R md a n (f + 1) cs =
      relaxLoop W H R md a n f (relaxNew W H a n (relaxForces W H md n cs) cs) := by
  simp only [relaxLoop]
  rw [if_neg hF, if_neg hm]

theorem relaxNew_length (W H : ℝ) (a n : ℕ) (F cs : List (ℝ × ℝ)) :
    (relaxNew W H a n F cs).length = n := by
  simp [relaxNew]

theorem relaxLoop_length (W H R md : ℝ) (a n : ℕ) :
    ∀ (f : ℕ) (cs : List (ℝ × ℝ)), cs.length = n →
      (relaxLoop W H R md a n f cs).length = n := by
  intro f
  induction f with
  | zero => intro cs hn; exact hn
  | succ f ih =>
      intro cs hn
      by_cases hF : ∀ p ∈ relaxForces W H md n cs, p = ((0 : ℝ), (0 : ℝ))
      · rw [relaxLoop_succ_noforce W H R md a n f cs hF]; exact hn
      · by_cases hm : relaxMaxMoveSq a n (relaxForces W H md n cs) < (1e-6 * R) ^ 2
        · rw [relaxLoop_succ_converged W H R md a n f cs hF hm]
          exact relaxNew_length W H a n _ cs
        · rw [relaxLoop_succ_continue W H R md a n f cs hF hm]
          exact ih _ (relaxNew_length W H a n _ cs)

/-- Claim C8: the Relaxer is a total function that never fails — it caps
at 2000 iterations (the cap simply returns the current positions),
returns a list of the full fiber count, exits early returning the
untouched coordinates when no point has a net force, exits early with
the freshly moved coordinates when the largest squared displacement
falls below `(1e-6 * fiberRadius)²`, and a pair at exactly zero
distance divides by the substituted epsilon `1e-9` rather than by
zero. -/
theorem C8_relaxer_terminates_and_caps (cs : List (ℝ × ℝ)) (a n : ℕ)
    (W H R md : ℝ) (hn : cs.length = n) :
    (relaxCoordsAnchored cs a n W H R md).length = n ∧
    relaxCoordsAnchored cs a n W H R md = relaxLoop W H R md a n 2000 cs ∧
    (∀ cs' : List (ℝ × ℝ), relaxLoop W H R md a n 0 cs' = cs') ∧
    (∀ (f : ℕ) (cs' : List (ℝ × ℝ)),
      (∀ p ∈ relaxForces W H md n cs', p = ((0 : ℝ), (0 : ℝ))) →
      relaxLoop W H R md a n (f + 1) cs' = cs') ∧
    (∀ (f : ℕ) (cs' : List (ℝ × ℝ)),
      (¬∀ p ∈ relaxForces W H md n cs', p = ((0 : ℝ), (0 : ℝ))) →
      relaxMaxMoveSq a n (relaxForces W H md n cs') < (1e-6 * R) ^ 2 →
      relaxLoop W H R md a n (f + 1) cs' =
        relaxNew W H a n (relaxForces W H md n cs') cs') ∧
    (∀ d : ℝ, d ≤ 0 → safeDist d = 1e-9) := by
  refine ⟨relaxLoop_length W H R md a n 2000 cs hn, rfl,
    fun cs' => rfl,
    fun f cs' h => relaxLoop_succ_noforce W H R md a n f cs' h,
    fun f cs' hF hm => relaxLoop_succ_converged W H R md a n f cs' hF hm,
    fun d hd => ?_⟩
  unfold safeDist
  rw [if_neg (not_lt.mpr hd)]

/-- Witness for C8: a single point has no interacting pair, so its
forces vanish and every early-exit equation instantiates; `safeDist`
at zero distance is the epsilon `1e-9`. -/
theorem C8_relaxer_terminates_and_caps_witness :
    (relaxCoordsAnchored [((5 : ℝ), (5 : ℝ))] 0 1 10 10 1 2).length = 1 ∧
    relaxLoop 10 10 1 2 0 1 0 [((5 : ℝ), (5 : ℝ))] = [((5 : ℝ), (5 : ℝ))] ∧
    relaxLoop 10 10 1 2 0 1 7 [((5 : ℝ), (5 : ℝ))] = [((5 : ℝ), (5 : ℝ))] ∧
    safeDist 0 = 1e-9 := by
  have h := C8_relaxer_terminates_and_caps [((5 : ℝ), (5 : ℝ))] 0 1 10 10 1 2 rfl
  have hF : relaxForces 10 10 2 1 [((5 : ℝ), (5 : ℝ))] =
      List.replicate 1 ((0 : ℝ), (0 : ℝ)) := by
    unfold relaxForces
    rw [show pairList 1 = [] from by decide]
    rfl
  have hall : ∀ p ∈ relaxForces 10 10 2 1 [((5 : ℝ), (5 : ℝ))],
      p = ((0 : ℝ), (0 : ℝ)) := by
    rw [hF]
    simp
  refine ⟨h.1, h.2.2.1 _, ?_, h.2.2.2.2.2 0 le_rfl⟩
  exact h.2.2.2.1 6 _ hall

theorem fmod_mem (x L : ℝ) (hL : 0 < L) : 0 ≤ fmod x L ∧ fmod x L < L := by
  have h1 : ((⌊x / L⌋ : ℤ) : ℝ) ≤ x / L := Int.floor_le _
  have h2 : x / L < (⌊x / L⌋ : ℝ) + 1 := Int.lt_floor_add_one _
  have he : L * (x / L) = x := mul_div_cancel₀ x hL.ne'
  have h3 : L * ((⌊x / L⌋ : ℤ) : ℝ) ≤ x := by
    calc L * ((⌊x / L⌋ : ℤ) : ℝ) ≤ L * (x / L) :=
          mul_le_mul_of_nonneg_left h1 hL.le
      _ = x := he
  have h4 : x < L * (((⌊x / L⌋ : ℤ) : ℝ) + 1) := by
    calc x = L * (x / L) := he.symm
      _ < L * (((⌊x / L⌋ : ℤ) : ℝ) + 1) := mul_lt_mul_of_pos_left h2 hL
  have hexp : L * (((⌊x / L⌋ : ℤ) : ℝ) + 1) = L * ((⌊x / L⌋ : ℤ) : ℝ) + L := by
    ring
  unfold fmod
  constructor
  · linarith
  · linarith [hexp ▸ h4]

theorem relaxNew_mem (W H : ℝ) (a n : ℕ) (F cs : List (ℝ × ℝ))
    (hW : 0 < W) (hH : 0 < H) :
    ∀ p ∈ relaxNew W H a n F cs, inDomain W H p := by
  intro p hp
  simp only [relaxNew, List.mem_map] at hp
  obtain ⟨i, -, rfl⟩ := hp
  exact ⟨(fmod_mem _ W hW).1, (fmod_mem _ W hW).2,
    (fmod_mem _ H hH).1, (fmod_mem _ H hH).2⟩

theorem relaxLoop_mem (W H R md : ℝ) (a n : ℕ) (hW : 0 < W) (hH : 0 < H) :
    ∀ (f : ℕ) (cs : List (ℝ × ℝ)), (∀ p ∈ cs, inDomain W H p) →
      ∀ p ∈ relaxLoop W H R md a n f cs, inDomain W H p := by
  intro f
  induction f with
  | zero => intro cs h; exact h
  | succ f ih =>
      intro cs h
      by_cases hF : ∀ p ∈ relaxForces W H md n cs, p = ((0 : ℝ), (0 : ℝ))
      · rw [relaxLoop_succ_noforce W H R md a n f cs hF]; exact h
      · by_cases hm : relaxMaxMoveSq a n (relaxForces W H md n cs) < (1e-6 * R) ^ 2
        · rw [relaxLoop_succ_converged W H R md a n f cs hF hm]
          exact relaxNew_mem W H a n _ cs hW hH
        · rw [relaxLoop_succ_continue W H R md a n f cs hF hm]
          exact ih _ (relaxNew_mem W H a n _ cs hW hH)

theorem correctPair_mem (W H md : ℝ) (cs : List (ℝ × ℝ)) (e : ScanEntry)
    (hW : 0 < W) (hH : 0 < H) (h : ∀ p ∈ cs, inDomain W H p) :
    ∀ p ∈ correctPair W H md cs e, inDomain W H p := by
  intro p hp
  simp only [correctPair] at hp
  rcases List.mem_or_eq_of_mem_set hp with hp1 | rfl
  · rcases List.mem_or_eq_of_mem_set hp1 with hp2 | rfl
    · exact h p hp2
    · exact ⟨(fmod_mem _ W hW).1, (fmod_mem _ W hW).2,
        (fmod_mem _ H hH).1, (fmod_mem _ H hH).2⟩
  · exact ⟨(fmod_mem _ W hW).1, (fmod_mem _ W hW).2,
      (fmod_mem _ H hH).1, (fmod_mem _ H hH).2⟩

theorem enforceLoop_mem (W H md : ℝ) (n : ℕ) (hW : 0 < W) (hH : 0 < H) :
    ∀ (f : ℕ) (cs out : List (ℝ × ℝ)),
      enforceLoop W H md n f cs = some out →
      (∀ p ∈ cs, inDomain W H p) → ∀ p ∈ out, inDomain W H p := by
  intro f
  induction f with
  | zero =>
      intro cs out h hcs
      cases hs : scanWorst W H cs n with
      | none =>
          rw [enforceLoop_zero_none W H md n cs hs] at h
          cases h
          exact hcs
      | some e =>
          rw [enforceLoop_zero_some W H md n cs e hs] at h
          by_cases hv : e.dsq < md ^ 2
          · simp [hv] at h
          · rw [if_neg hv] at h
            cases h
            exact hcs
  | succ f ih =>
      intro cs out h hcs
      cases hs : scanWorst W H cs n with
      | none =>
          rw [enforceLoop_succ_none W H md n f cs hs] at h
          cases h
          exact hcs
      | some e =>
          rw [enforceLoop_succ_some W H md n f cs e hs] at h
          by_cases hv : md ^ 2 ≤ e.dsq
          · rw [if_pos hv] at h
            cases h
            exact hcs
          · rw [if_neg hv] at h
            exact ih _ out h (correctPair_mem W H md cs e hW hH hcs)

theorem rsaAttempt_mem (g : ℕ → ℝ × ℝ) (W H md : ℝ)
    (placed : List (ℝ × ℝ)) (hW : 0 < W) (hH : 0 < H)
    (hg : ∀ k, 0 ≤ (g k).1 ∧ (g k).1 < 1 ∧ 0 ≤ (g k).2 ∧ (g k).2 < 1) :
    ∀ (t k : ℕ) (p : ℝ × ℝ) (k' : ℕ),
      rsaAttempt g W H md placed t k = some (p, k') → inDomain W H p := by
  intro t
  induction t with
  | zero => intro k p k' h; exact Option.noConfusion h
  | succ t ih =>
      intro k p k' h
      rw [rsaAttempt] at h
      by_cases hc : isTooClose W H md placed ((g k).1 * W) ((g k).2 * H)
      · rw [if_pos hc] at h
        exact ih _ p k' h
      · rw [if_neg hc] at h
        obtain ⟨rfl, -⟩ : ((g k).1 * W, (g k).2 * H) = p ∧ k + 1 = k' := by
          constructor <;> [exact congrArg Prod.fst (Option.some.inj h);
            exact congrArg Prod.snd (Option.some.inj h)]
        refine ⟨mul_nonneg (hg k).1 hW.le, ?_,
          mul_nonneg (hg k).2.2.1 hH.le, ?_⟩
        · calc (g k).1 * W < 1 * W :=
              mul_lt_mul_of_pos_right (hg k).2.1 hW
            _ = W := one_mul W
        · calc (g k).2 * H < 1 * H :=
              mul_lt_mul_of_pos_right (hg k).2.2.2 hH
            _ = H := one_mul H

theorem rsaSeedLoop_mem (g : ℕ → ℝ × ℝ) (W H md : ℝ)
    (hW : 0 < W) (hH : 0 < H)
    (hg : ∀ k, 0 ≤ (g k).1 ∧ (g k).1 < 1 ∧ 0 ≤ (g k).2 ∧ (g k).2 < 1) :
    ∀ (c k : ℕ) (acc : List (ℝ × ℝ)), (∀ p ∈ acc, inDomain W H p) →
      ∀ p ∈ (rsaSeedLoop g W H md c k acc).1, inDomain W H p := by
  intro c
  induction c with
  | zero => intro k acc hacc; exact hacc
  | succ c ih =>
      intro k acc hacc
      rw [rsaSeedLoop]
      cases ha : rsaAttempt g W H md acc 500 k with
      | none => exact hacc
      | some pk =>
          refine ih _ _ ?_
          intro p hp
          rcases List.mem_append.mp hp with hp1 | hp2
          · exact hacc p hp1
          · rw [List.mem_singleton.mp hp2]
            exact rsaAttempt_mem g W H md acc hW hH hg 500 k pk.1 pk.2 (by
              rw [ha])

theorem fillLoop_mem (g : ℕ → ℝ × ℝ) (W H : ℝ) (hW : 0 < W) (hH : 0 < H)
    (hg : ∀ k, 0 ≤ (g k).1 ∧ (g k).1 < 1 ∧ 0 ≤ (g k).2 ∧ (g k).2 < 1) :
    ∀ (m k : ℕ) (acc : List (ℝ × ℝ)), (∀ p ∈ acc, inDomain W H p) →
      ∀ p ∈ fillLoop g W H m k acc, inDomain W H p := by
  intro m
  induction m with
  | zero => intro k acc hacc; exact hacc
  | succ m ih =>
      intro k acc hacc
      rw [fillLoop]
      refine ih _ _ ?_
      intro p hp
      rcases List.mem_append.mp hp with hp1 | hp2
      · exact hacc p hp1
      · rw [List.mem_singleton.mp hp2]
        refine ⟨mul_nonneg (hg k).1 hW.le, ?_,
          mul_nonneg (hg k).2.2.1 hH.le, ?_⟩
        · calc (g k).1 * W < 1 * W := mul_lt_mul_of_pos_right (hg k).2.1 hW
            _ = W := one_mul W
        · calc (g k).2 * H < 1 * H := mul_lt_mul_of_pos_right (hg k).2.2.2 hH
            _ = H := one_mul H

/-- Claim C4: every center accepted by a successful run of the
placement pipeline (Seeder, Filler, Relaxer, Corrector) lies in
`[0, W) × [0, H)`, given a positive domain and unit-square random
draws. -/
theorem C4_accepted_centers_in_domain (g : ℕ → ℝ × ℝ) (W H R md : ℝ)
    (sc n : ℕ) (out : List (ℝ × ℝ)) (hW : 0 < W) (hH : 0 < H)
    (hg : ∀ k, 0 ≤ (g k).1 ∧ (g k).1 < 1 ∧ 0 ≤ (g k).2 ∧ (g k).2 < 1)
    (hrun : generatePlacement g W H R md sc n = some out) :
    ∀ p ∈ out, 0 ≤ p.1 ∧ p.1 < W ∧ 0 ≤ p.2 ∧ p.2 < H := by
  unfold generatePlacement at hrun
  have hseed : ∀ p ∈ (rsaSeedLoop g W H md sc 0 []).1, inDomain W H p :=
    rsaSeedLoop_mem g W H md hW hH hg sc 0 [] (by simp)
  have hinit := fillLoop_mem g W H hW hH hg
    (n - (rsaSeedLoop g W H md sc 0 []).1.length)
    (rsaSeedLoop g W H md sc 0 []).2 (rsaSeedLoop g W H md sc 0 []).1 hseed
  have hrelax := relaxLoop_mem W H R md (rsaSeedLoop g W H md sc 0 []).1.length
    n hW hH 2000 _ hinit
  exact enforceLoop_mem W H md n hW hH 50000 _ out hrun hrelax

/-- Witness for C4: with the constant stream `(1/2, 1/2)`, no seeds and
a single fiber in a `10 × 10` domain, the pipeline succeeds with the
center `(5, 5)`, which lies in the domain. -/
theorem C4_accepted_centers_in_domain_witness :
    (0 : ℝ) ≤ 5 ∧ (5 : ℝ) < 10 ∧ (0 : ℝ) ≤ 5 ∧ (5 : ℝ) < 10 := by
  have hg : ∀ k : ℕ, 0 ≤ ((fun _ : ℕ => ((1 / 2 : ℝ), (1 / 2 : ℝ))) k).1 ∧
      ((fun _ : ℕ => ((1 / 2 : ℝ), (1 / 2 : ℝ))) k).1 < 1 ∧
      0 ≤ ((fun _ : ℕ => ((1 / 2 : ℝ), (1 / 2 : ℝ))) k).2 ∧
      ((fun _ : ℕ => ((1 / 2 : ℝ), (1 / 2 : ℝ))) k).2 < 1 := by
    intro k
    norm_num
  have hfill : fillLoop (fun _ : ℕ => ((1 / 2 : ℝ), (1 / 2 : ℝ))) 10 10 1 0 [] =
      [((5 : ℝ), (5 : ℝ))] := by
    rw [fillLoop, fillLoop]
    norm_num
  have hall : ∀ p ∈ relaxForces 10 10 2 1 [((5 : ℝ), (5 : ℝ))],
      p = ((0 : ℝ), (0 : ℝ)) := by
    unfold relaxForces
    rw [show pairList 1 = [] from by decide]
    simp
  have hrelax : relaxCoordsAnchored [((5 : ℝ), (5 : ℝ))] 0 1 10 10 1 2 =
      [((5 : ℝ), (5 : ℝ))] := by
    unfold relaxCoordsAnchored
    rw [show (2000 : ℕ) = 1999 + 1 from rfl]
    exact relaxLoop_succ_noforce 10 10 1 2 0 1 1999 _ hall
  have henf : finalCheckAndEnforce [((5 : ℝ), (5 : ℝ))] 1 10 10 2 =
      some [((5 : ℝ), (5 : ℝ))] := by
    unfold finalCheckAndEnforce
    rw [show (50000 : ℕ) = 49999 + 1 from rfl]
    refine enforceLoop_succ_none 10 10 2 1 49999 _ ?_
    unfold scanWorst
    rw [show pairList 1 = [] from by decide]
    rfl
  have hrun : generatePlacement (fun _ : ℕ => ((1 / 2 : ℝ), (1 / 2 : ℝ)))
      10 10 1 2 0 1 = some [((5 : ℝ), (5 : ℝ))] := by
    unfold generatePlacement
    rw [show rsaSeedLoop (fun _ : ℕ => ((1 / 2 : ℝ), (1 / 2 : ℝ))) 10 10 2 0 0 [] =
      ([], 0) from rfl]
    simp only
    rw [show ([] : List (ℝ × ℝ)).length = 0 from rfl, Nat.sub_zero, hfill,
      hrelax, henf]
  exact C4_accepted_centers_in_domain _ 10 10 1 2 0 1 [((5 : ℝ), (5 : ℝ))]
    (by norm_num) (by norm_num) hg hrun ((5 : ℝ), (5 : ℝ))
    (List.mem_singleton_self _)

theorem mem_mirrorCandidates {W H r : ℝ} {p q : ℝ × ℝ} :
    q ∈ mirrorCandidates W H r p ↔
      q = p ∨
      (p.1 < r ∧ q = (p.1 + W, p.2)) ∨
      (W - r < p.1 ∧ q = (p.1 - W, p.2)) ∨
      (p.2 < r ∧ q = (p.1, p.2 + H)) ∨
      (H - r < p.2 ∧ q = (p.1, p.2 - H)) ∨
      (p.1 < r ∧ p.2 < r ∧ Real.sqrt (p.1 ^ 2 + p.2 ^ 2) < r ∧
        q = (p.1 + W, p.2 + H)) ∨
      (p.1 < r ∧ H - r < p.2 ∧ Real.sqrt (p.1 ^ 2 + (H - p.2) ^ 2) < r ∧
        q = (p.1 + W, p.2 - H)) ∨
      (W - r < p.1 ∧ H - r < p.2 ∧
        Real.sqrt ((W - p.1) ^ 2 + (H - p.2) ^ 2) < r ∧
        q = (p.1 - W, p.2 - H)) ∨
      (W - r < p.1 ∧ p.2 < r ∧ Real.sqrt ((W - p.1) ^ 2 + p.2 ^ 2) < r ∧
        q = (p.1 - W, p.2 + H)) := by
  simp only [mirrorCandidates, List.mem_append, List.mem_singleton,
    List.mem_ite_nil_right, or_assoc, and_assoc]

theorem mem_step2Candidates {W H r : ℝ} {p q : ℝ × ℝ} :
    q ∈ step2Candidates W H r p ↔
      q = p ∨
      (p.1 < r ∧ q = (p.1 + W, p.2)) ∨
      (W - r < p.1 ∧ q = (p.1 - W, p.2)) ∨
      (p.2 < r ∧ q = (p.1, p.2 + H)) ∨
      (H - r < p.2 ∧ q = (p.1, p.2 - H)) ∨
      (p.1 < r ∧ H - r < p.2 ∧ q = (p.1 + W, p.2 - H)) ∨
      (p.1 < r ∧ p.2 < r ∧ q = (p.1 + W, p.2 + H)) ∨
      (W - r < p.1 ∧ H - r < p.2 ∧ q = (p.1 - W, p.2 - H)) ∨
      (W - r < p.1 ∧ p.2 < r ∧ q = (p.1 - W, p.2 + H)) := by
  simp only [step2Candidates, List.mem_append, List.mem_singleton,
    List.mem_ite_nil_right, or_assoc, and_assoc]

theorem mirrorCandidates_subset_step2 {W H r : ℝ} {p q : ℝ × ℝ}
    (h : q ∈ mirrorCandidates W H r p) : q ∈ step2Candidates W H r p := by
  rw [mem_mirrorCandidates] at h
  rw [mem_step2Candidates]
  tauto

theorem dedupLoop_subset :
    ∀ (l acc : List (ℝ × ℝ)) (x : ℝ × ℝ),
      x ∈ dedupLoop l acc → x ∈ acc ∨ x ∈ l := by
  intro l
  induction l with
  | nil => intro acc x h; exact Or.inl h
  | cons c rest ih =>
      intro acc x h
      rw [dedupLoop] at h
      by_cases hd : ∃ e ∈ acc, |c.1 - e.1| < 1e-6 ∧ |c.2 - e.2| < 1e-6
      · rw [if_pos hd] at h
        rcases ih acc x h with h1 | h2
        · exact Or.inl h1
        · exact Or.inr (List.mem_cons_of_mem c h2)
      · rw [if_neg hd] at h
        rcases ih (acc ++ [c]) x h with h1 | h2
        · rcases List.mem_append.mp h1 with h3 | h4
          · exact Or.inl h3
          · exact Or.inr (List.mem_singleton.mp h4 ▸ List.mem_cons_self c rest)
        · exact Or.inr (List.mem_cons_of_mem c h2)

theorem mem_insertLex {q x : ℝ × ℝ} :
    ∀ {l : List (ℝ × ℝ)}, x ∈ insertLex q l ↔ x = q ∨ x ∈ l := by
  intro l
  induction l with
  | nil => simp [insertLex]
  | cons y ys ih =>
      rw [insertLex]
      by_cases h : q.1 < y.1 ∨ (q.1 = y.1 ∧ q.2 ≤ y.2)
      · rw [if_pos h]
        simp [or_comm, or_assoc, or_left_comm]
      · rw [if_neg h]
        simp only [List.mem_cons, ih]
        tauto

theorem mem_sortLex {x : ℝ × ℝ} :
    ∀ {l : List (ℝ × ℝ)}, x ∈ sortLex l ↔ x ∈ l := by
  intro l
  induction l with
  | nil => simp [sortLex]
  | cons y ys ih =>
      show x ∈ insertLex y (sortLex ys) ↔ _
      rw [mem_insertLex, ih]
      simp [eq_comm]

theorem mem_pySortedSet {x : ℝ × ℝ} {l : List (ℝ × ℝ)} :
    x ∈ pySortedSet l ↔ x ∈ l := by
  rw [pySortedSet, mem_sortLex, List.mem_dedup]

theorem dedupLoop_mem_acc {x : ℝ × ℝ} :
    ∀ (l acc : List (ℝ × ℝ)), x ∈ acc → x ∈ dedupLoop l acc := by
  intro l
  induction l with
  | nil => intro acc hacc; exact hacc
  | cons d ds ih =>
      intro acc hacc
      rw [dedupLoop]
      by_cases hd : ∃ e ∈ acc, |d.1 - e.1| < 1e-6 ∧ |d.2 - e.2| < 1e-6
      · rw [if_pos hd]
        exact ih _ hacc
      · rw [if_neg hd]
        exact ih _ (List.mem_append.mpr (Or.inl hacc))

/-- Claim C10, counterexample: for a center at `(0.4, 0.4)` with radius
`0.5` in a `10 × 10` domain (near both low edges but farther than the
radius from the corner vertex), the inline Step 2 mirror generation
emits the diagonal mirror `(10.4, 10.4)` while `buildAllFiberCenters3D`
does not, so the two mirror builders do not produce the same coordinate
set. -/
theorem C10_counterexample :
    ((10.4 : ℝ), (10.4 : ℝ)) ∈ step2Mirrors [((0.4 : ℝ), (0.4 : ℝ))] 10 10 0.5 ∧
    ((10.4 : ℝ), (10.4 : ℝ)) ∉ buildAllFiberCenters3D [((0.4 : ℝ), (0.4 : ℝ))] 10 10 0.5 := by
  constructor
  · unfold step2Mirrors
    refine List.mem_flatMap.mpr ⟨((0.4 : ℝ), (0.4 : ℝ)), List.mem_singleton_self _, ?_⟩
    rw [mem_pySortedSet, mem_step2Candidates]
    refine Or.inr (Or.inr (Or.inr (Or.inr (Or.inr (Or.inr (Or.inl ?_))))))
    norm_num
  · have hsq : ¬Real.sqrt ((0.4 : ℝ) ^ 2 + (0.4 : ℝ) ^ 2) < 0.5 := by
      rw [not_lt]
      rw [show ((0.4 : ℝ) ^ 2 + (0.4 : ℝ) ^ 2) = 0.32 by norm_num]
      rw [show (0.5 : ℝ) = Real.sqrt 0.25 by
        rw [show (0.25 : ℝ) = 0.5 ^ 2 by norm_num, Real.sqrt_sq (by norm_num)]]
      exact Real.sqrt_le_sqrt (by norm_num)
    intro hmem
    unfold buildAllFiberCenters3D at hmem
    rcases dedupLoop_subset _ [] _ hmem with h | h
    · simp at h
    · rw [List.flatMap_singleton, mem_mirrorCandidates] at h
      rcases h with h | ⟨-, h⟩ | ⟨h1, -⟩ | ⟨-, h⟩ | ⟨h1, -⟩ |
        ⟨-, -, h3, -⟩ | ⟨-, h2, -, -⟩ | ⟨h1, -, -, -⟩ | ⟨h1, -, -, -⟩
      · have := congrArg Prod.fst h
        norm_num at this
      · have := congrArg Prod.snd h
        norm_num at this
      · norm_num at h1
      · have := congrArg Prod.fst h
        norm_num at this
      · norm_num at h1
      · exact hsq h3
      · norm_num at h2
      · norm_num at h1
      · norm_num at h1

/-- Claim C10 as amended: every coordinate produced by the
classification mirror builder `buildAllFiberCenters3D` also appears
among the Step 2 geometry mirror coordinates (the converse fails: the
Step 2 builder adds diagonal corner mirrors without the corner-vertex
distance check, as the counterexample shows). -/
theorem C10_classification_mirrors_subset_geometry
    (centers : List (ℝ × ℝ)) (W H r : ℝ) (p : ℝ × ℝ)
    (hp : p ∈ buildAllFiberCenters3D centers W H r) :
    p ∈ step2Mirrors centers W H r := by
  unfold buildAllFiberCenters3D at hp
  rcases dedupLoop_subset _ [] _ hp with h | h
  · simp at h
  · obtain ⟨c, hc, hq⟩ := List.mem_flatMap.mp h
    unfold step2Mirrors
    exact List.mem_flatMap.mpr
      ⟨c, hc, mem_pySortedSet.mpr (mirrorCandidates_subset_step2 hq)⟩

/-- Witness for the amended C10: the original center `(0.4, 0.4)` is in
the classification mirror list, hence also in the Step 2 list. -/
theorem C10_classification_mirrors_subset_geometry_witness :
    ((0.4 : ℝ), (0.4 : ℝ)) ∈ step2Mirrors [((0.4 : ℝ), (0.4 : ℝ))] 10 10 0.5 := by
  refine C10_classification_mirrors_subset_geometry
    [((0.4 : ℝ), (0.4 : ℝ))] 10 10 0.5 ((0.4 : ℝ), (0.4 : ℝ)) ?_
  unfold buildAllFiberCenters3D
  rw [List.flatMap_singleton]
  obtain ⟨rest, hrest⟩ : ∃ rest, mirrorCandidates 10 10 0.5 ((0.4 : ℝ), (0.4 : ℝ)) =
      ((0.4 : ℝ), (0.4 : ℝ)) :: rest := ⟨_, rfl⟩
  rw [hrest, dedupLoop, if_neg (by simp)]
  exact dedupLoop_mem_acc rest _ (List.mem_singleton_self _)

/-- Claim C9: for the single center `(0.05, 5)` in a `10 × 10` domain
with radius `0.5`, the Mirror Builder returns exactly the original
point plus one mirror at `(10.05, 5)` (none at the right edge); and in
general a diagonal corner mirror appears among a point's candidates
precisely when the point is within `radius` of both edges of that
corner and its Euclidean distance to the corner vertex is below
`radius`. -/
theorem C9_mirror_builder_edge_and_corner :
    buildAllFiberCenters3D [((0.05 : ℝ), (5 : ℝ))] 10 10 0.5 =
      [((0.05 : ℝ), (5 : ℝ)), ((10.05 : ℝ), (5 : ℝ))] ∧
    (∀ (W H r : ℝ) (p : ℝ × ℝ), 0 < W → 0 < H →
      ((p.1 + W, p.2 + H) ∈ mirrorCandidates W H r p ↔
        p.1 < r ∧ p.2 < r ∧ Real.sqrt (p.1 ^ 2 + p.2 ^ 2) < r) ∧
      ((p.1 + W, p.2 - H) ∈ mirrorCandidates W H r p ↔
        p.1 < r ∧ H - r < p.2 ∧ Real.sqrt (p.1 ^ 2 + (H - p.2) ^ 2) < r) ∧
      ((p.1 - W, p.2 - H) ∈ mirrorCandidates W H r p ↔
        W - r < p.1 ∧ H - r < p.2 ∧
          Real.sqrt ((W - p.1) ^ 2 + (H - p.2) ^ 2) < r) ∧
      ((p.1 - W, p.2 + H) ∈ mirrorCandidates W H r p ↔
        W - r < p.1 ∧ p.2 < r ∧ Real.sqrt ((W - p.1) ^ 2 + p.2 ^ 2) < r)) := by
  constructor
  · have hcand : mirrorCandidates 10 10 0.5 ((0.05 : ℝ), (5 : ℝ)) =
        [((0.05 : ℝ), (5 : ℝ)), ((10.05 : ℝ), (5 : ℝ))] := by
      norm_num [mirrorCandidates]
    unfold buildAllFiberCenters3D
    rw [List.flatMap_singleton, hcand, dedupLoop, if_neg (by simp)]
    rw [dedupLoop, if_neg ?hne]
    case hne =>
      rintro ⟨e, he, h1, -⟩
      simp only [List.nil_append, List.mem_singleton] at he
      subst he
      norm_num at h1
    rfl
  · intro W H r p hW hH
    refine ⟨⟨?_, ?_⟩, ⟨?_, ?_⟩, ⟨?_, ?_⟩, ⟨?_, ?_⟩⟩
    · intro h
      rw [mem_mirrorCandidates] at h
      rcases h with h | ⟨h1, h⟩ | ⟨h1, h⟩ | ⟨h1, h⟩ | ⟨h1, h⟩ |
        ⟨h1, h2, h3, h⟩ | ⟨h1, h2, h3, h⟩ | ⟨h1, h2, h3, h⟩ | ⟨h1, h2, h3, h⟩
      · have e1 : p.1 + W = p.1 := congrArg Prod.fst h
        linarith
      · have e2 : p.2 + H = p.2 := congrArg Prod.snd h
        linarith
      · have e1 : p.1 + W = p.1 - W := congrArg Prod.fst h
        linarith
      · have e1 : p.1 + W = p.1 := congrArg Prod.fst h
        linarith
      · have e1 : p.1 + W = p.1 := congrArg Prod.fst h
        linarith
      · exact ⟨h1, h2, h3⟩
      · have e2 : p.2 + H = p.2 - H := congrArg Prod.snd h
        linarith
      · have e1 : p.1 + W = p.1 - W := congrArg Prod.fst h
        linarith
      · have e1 : p.1 + W = p.1 - W := congrArg Prod.fst h
        linarith
    · rintro ⟨h1, h2, h3⟩
      rw [mem_mirrorCandidates]
      exact Or.inr (Or.inr (Or.inr (Or.inr (Or.inr (Or.inl ⟨h1, h2, h3, rfl⟩)))))
    · intro h
      rw [mem_mirrorCandidates] at h
      rcases h with h | ⟨h1, h⟩ | ⟨h1, h⟩ | ⟨h1, h⟩ | ⟨h1, h⟩ |
        ⟨h1, h2, h3, h⟩ | ⟨h1, h2, h3, h⟩ | ⟨h1, h2, h3, h⟩ | ⟨h1, h2, h3, h⟩
      · have e1 : p.1 + W = p.1 := congrArg Prod.fst h
        linarith
      · have e2 : p.2 - H = p.2 := congrArg Prod.snd h
        linarith
      · have e1 : p.1 + W = p.1 - W := congrArg Prod.fst h
        linarith
      · have e1 : p.1 + W = p.1 := congrArg Prod.fst h
        linarith
      · have e1 : p.1 + W = p.1 := congrArg Prod.fst h
        linarith
      · have e2 : p.2 - H = p.2 + H := congrArg Prod.snd h
        linarith
      · exact ⟨h1, h2, h3⟩
      · have e1 : p.1 + W = p.1 - W := congrArg Prod.fst h
        linarith
      · have e1 : p.1 + W = p.1 - W := congrArg Prod.fst h
        linarith
    · rintro ⟨h1, h2, h3⟩
      rw [mem_mirrorCandidates]
      exact Or.inr (Or.inr (Or.inr (Or.inr (Or.inr
        (Or.inr (Or.inl ⟨h1, h2, h3, rfl⟩))))))
    · intro h
      rw [mem_mirrorCandidates] at h
      rcases h with h | ⟨h1, h⟩ | ⟨h1, h⟩ | ⟨h1, h⟩ | ⟨h1, h⟩ |
        ⟨h1, h2, h3, h⟩ | ⟨h1, h2, h3, h⟩ | ⟨h1, h2, h3, h⟩ | ⟨h1, h2, h3, h⟩
      · have e1 : p.1 - W = p.1 := congrArg Prod.fst h
        linarith
      · have e1 : p.1 - W = p.1 + W := congrArg Prod.fst h
        linarith
      · have e2 : p.2 - H = p.2 := congrArg Prod.snd h
        linarith
      · have e1 : p.1 - W = p.1 := congrArg Prod.fst h
        linarith
      · have e1 : p.1 - W = p.1 := congrArg Prod.fst h
        linarith
      · have e1 : p.1 - W = p.1 + W := congrArg Prod.fst h
        linarith
      · have e1 : p.1 - W = p.1 + W := congrArg Prod.fst h
        linarith
      · exact ⟨h1, h2, h3⟩
      · have e2 : p.2 - H = p.2 + H := congrArg Prod.snd h
        linarith
    · rintro ⟨h1, h2, h3⟩
      rw [mem_mirrorCandidates]
      exact Or.inr (Or.inr (Or.inr (Or.inr (Or.inr
        (Or.inr (Or.inr (Or.inl ⟨h1, h2, h3, rfl⟩)))))))
    · intro h
      rw [mem_mirrorCandidates] at h
      rcases h with h | ⟨h1, h⟩ | ⟨h1, h⟩ | ⟨h1, h⟩ | ⟨h1, h⟩ |
        ⟨h1, h2, h3, h⟩ | ⟨h1, h2, h3, h⟩ | ⟨h1, h2, h3, h⟩ | ⟨h1, h2, h3, h⟩
      · have e1 : p.1 - W = p.1 := congrArg Prod.fst h
        linarith
      · have e1 : p.1 - W = p.1 + W := congrArg Prod.fst h
        linarith
      · have e2 : p.2 + H = p.2 := congrArg Prod.snd h
        linarith
      · have e1 : p.1 - W = p.1 := congrArg Prod.fst h
        linarith
      · have e1 : p.1 - W = p.1 := congrArg Prod.fst h
        linarith
      · have e1 : p.1 - W = p.1 + W := congrArg Prod.fst h
        linarith
      · have e1 : p.1 - W = p.1 + W := congrArg Prod.fst h
        linarith
      · have e2 : p.2 + H = p.2 - H := congrArg Prod.snd h
        linarith
      · exact ⟨h1, h2, h3⟩
    · rintro ⟨h1, h2, h3⟩
      rw [mem_mirrorCandidates]
      exact Or.inr (Or.inr (Or.inr (Or.inr (Or.inr
        (Or.inr (Or.inr (Or.inr ⟨h1, h2, h3, rfl⟩)))))))

/-- Witness for C9: the corner characterisation instantiated at the
Scenario D point — `(0.05, 5)` is nowhere near a corner, so no
bottom-left diagonal mirror is generated. -/
theorem C9_mirror_builder_edge_and_corner_witness :
    ((10.05 : ℝ), (15 : ℝ)) ∉ mirrorCandidates 10 10 0.5 ((0.05 : ℝ), (5 : ℝ)) := by
  intro hmem
  have hiff := ((C9_mirror_builder_edge_and_corner).2 10 10 0.5
    ((0.05 : ℝ), (5 : ℝ)) (by norm_num) (by norm_num)).1
  have heq : ((10.05 : ℝ), (15 : ℝ)) =
      ((((0.05 : ℝ), (5 : ℝ)) : ℝ × ℝ).1 + 10,
       (((0.05 : ℝ), (5 : ℝ)) : ℝ × ℝ).2 + 10) := by
    norm_num
  rw [heq] at hmem
  obtain ⟨-, h2, -⟩ := hiff.mp hmem
  norm_num at h2

theorem bestStep_cases (s : Node) (tol : ℝ) (i1 i2 : ℕ)
    (acc : Option (Node × ℝ)) (m : Node) :
    bestStep s tol i1 i2 acc m = acc ∨
    (bestStep s tol i1 i2 acc m = some (m, planarDist s m i1 i2) ∧
      planarDist s m i1 i2 < tol) := by
  cases acc with
  | none =>
      by_cases h : planarDist s m i1 i2 < tol
      · exact Or.inr ⟨by simp [bestStep, h], h⟩
      · refine Or.inl ?_
        simp [bestStep, h]
  | some b =>
      by_cases h : planarDist s m i1 i2 < tol ∧ planarDist s m i1 i2 < b.2
      · exact Or.inr ⟨by simp [bestStep, h], h.1⟩
      · refine Or.inl ?_
        simp [bestStep, h]

theorem bestFold_provenance (s : Node) (tol : ℝ) (i1 i2 : ℕ) :
    ∀ (l : List Node) (acc : Option (Node × ℝ)) (b : Node × ℝ),
      l.foldl (bestStep s tol i1 i2) acc = some b →
      acc = some b ∨
      (b.1 ∈ l ∧ b.2 = planarDist s b.1 i1 i2 ∧ b.2 < tol) := by
  intro l
  induction l with
  | nil => intro acc b h; exact Or.inl h
  | cons m rest ih =>
      intro acc b h
      rw [List.foldl_cons] at h
      rcases bestStep_cases s tol i1 i2 acc m with hc | ⟨hc, hlt⟩
      · rw [hc] at h
        rcases ih acc b h with h1 | ⟨h1, h2⟩
        · exact Or.inl h1
        · exact Or.inr ⟨List.mem_cons_of_mem m h1, h2⟩
      · rw [hc] at h
        rcases ih _ b h with h1 | ⟨h1, h2⟩
        · obtain rfl : (m, planarDist s m i1 i2) = b := Option.some.inj h1
          exact Or.inr ⟨List.mem_cons_self m rest, rfl, hlt⟩
        · exact Or.inr ⟨List.mem_cons_of_mem m h1, h2⟩

theorem findBest_some (s : Node) (pool : List Node) (tol : ℝ) (i1 i2 : ℕ)
    (b : Node × ℝ) (h : findBest s pool tol i1 i2 = some b) :
    b.1 ∈ pool ∧ b.2 = planarDist s b.1 i1 i2 ∧ b.2 < tol := by
  rcases bestFold_provenance s tol i1 i2 pool none b h with h1 | h1
  · exact Option.noConfusion h1
  · exact h1

theorem removeNode_sublist : ∀ (l : List Node) (lbl : ℕ),
    List.Sublist (removeNode l lbl) l := by
  intro l lbl
  induction l with
  | nil => exact List.Sublist.refl _
  | cons x xs ih =>
      rw [removeNode]
      by_cases h : x.label = lbl
      · rw [if_pos h]
        exact List.sublist_cons_self x xs
      · rw [if_neg h]
        exact List.Sublist.cons₂ x ih

theorem removeNode_length_lt (m : Node) : ∀ (l : List Node), m ∈ l →
    (removeNode l m.label).length < l.length := by
  intro l
  induction l with
  | nil => intro h; exact absurd h (List.not_mem_nil m)
  | cons x xs ih =>
      intro h
      rw [removeNode]
      by_cases hx : x.label = m.label
      · rw [if_pos hx]
        simp
      · rw [if_neg hx]
        rcases List.mem_cons.mp h with rfl | hmem
        · exact absurd rfl hx
        · simpa using ih hmem

theorem removeNode_not_label : ∀ (l : List Node) (lbl : ℕ),
    (l.map Node.label).Nodup →
    ∀ x ∈ removeNode l lbl, x.label ≠ lbl := by
  intro l
  induction l with
  | nil => intro lbl _ x hx; exact absurd hx (List.not_mem_nil x)
  | cons y ys ih =>
      intro lbl hnd x hx
      rw [List.map_cons, List.nodup_cons] at hnd
      rw [removeNode] at hx
      by_cases hy : y.label = lbl
      · intro hxl
        refine hnd.1 ?_
        rw [if_pos hy] at hx
        rw [hy, ← hxl]
        exact List.mem_map_of_mem Node.label hx
      · rw [if_neg hy] at hx
        rcases List.mem_cons.mp hx with rfl | hmem
        · exact hy
        · exact ih lbl hnd.2 x hmem

theorem pairLoop_props (tol : ℝ) (i1 i2 : ℕ) :
    ∀ (ss pool : List Node), (pool.map Node.label).Nodup →
      (pairLoop tol i1 i2 ss pool).length ≤ ss.length ∧
      (pairLoop tol i1 i2 ss pool).length ≤ pool.length ∧
      List.Sublist ((pairLoop tol i1 i2 ss pool).map fun pr => pr.1) ss ∧
      (∀ pr ∈ pairLoop tol i1 i2 ss pool,
        pr.2 ∈ pool ∧ planarDist pr.1 pr.2 i1 i2 < tol) ∧
      ((pairLoop tol i1 i2 ss pool).map fun pr => pr.2.label).Nodup := by
  intro ss
  induction ss with
  | nil =>
      intro pool hnd
      refine ⟨by simp [pairLoop], by simp [pairLoop], ?_, by simp [pairLoop],
        by simp [pairLoop]⟩
      simp [pairLoop]
  | cons s ss ih =>
      intro pool hnd
      rw [pairLoop]
      cases hb : findBest s pool tol i1 i2 with
      | none =>
          obtain ⟨h1, h2, h3, h4, h5⟩ := ih pool hnd
          exact ⟨Nat.le_succ_of_le h1, h2, h3.trans (List.sublist_cons_self s ss),
            h4, h5⟩
      | some b =>
          obtain ⟨hmem, hdist, hlt⟩ := findBest_some s pool tol i1 i2 b hb
          have hnd' : ((removeNode pool b.1.label).map Node.label).Nodup :=
            ((removeNode_sublist pool b.1.label).map Node.label).nodup hnd
          obtain ⟨h1, h2, h3, h4, h5⟩ := ih (removeNode pool b.1.label) hnd'
          have hlen : (removeNode pool b.1.label).length < pool.length :=
            removeNode_length_lt b.1 pool hmem
          refine ⟨Nat.succ_le_succ h1, ?_, ?_, ?_, ?_⟩
          · calc (pairLoop tol i1 i2 ss (removeNode pool b.1.label)).length + 1 ≤
                (removeNode pool b.1.label).length + 1 := Nat.succ_le_succ h2
              _ ≤ pool.length := hlen
          · exact List.Sublist.cons₂ s h3
          · intro pr hpr
            rcases List.mem_cons.mp hpr with rfl | hpr'
            · exact ⟨hmem, hdist ▸ hlt⟩
            · obtain ⟨hp2, hpd⟩ := h4 pr hpr'
              exact ⟨(removeNode_sublist pool b.1.label).mem hp2, hpd⟩
          · rw [List.map_cons, List.nodup_cons]
            refine ⟨?_, h5⟩
            intro hcontra
            obtain ⟨pr, hpr, hlbl⟩ := List.mem_map.mp hcontra
            exact removeNode_not_label pool b.1.label hnd pr.2 (h4 pr hpr).1 hlbl

/-- Claim C5: for every pair of input node lists (with the distinct
labels of real mesh nodes) and every tolerance, the pairing returns at
most `min(|slaves|, |masters|)` pairs, no slave or master node appears
in more than one pair, and every produced pair's in-plane 2D distance
is strictly below the tolerance. -/
theorem C5_pairing_invariants (slaves masters : List Node) (tol : ℝ)
    (idx : ℕ × ℕ) (hs : (slaves.map Node.label).Nodup)
    (hm : (masters.map Node.label).Nodup) :
    (pairBoundaryNodes3D slaves masters tol idx).length ≤
      min slaves.length masters.length ∧
    ((pairBoundaryNodes3D slaves masters tol idx).map
      fun pr => pr.1.label).Nodup ∧
    ((pairBoundaryNodes3D slaves masters tol idx).map
      fun pr => pr.2.label).Nodup ∧
    ∀ pr ∈ pairBoundaryNodes3D slaves masters tol idx,
      planarDist pr.1 pr.2 idx.1 idx.2 < tol := by
  obtain ⟨h1, h2, h3, h4, h5⟩ := pairLoop_props tol idx.1 idx.2 slaves masters hm
  refine ⟨le_min h1 h2, ?_, h5, fun pr hpr => (h4 pr hpr).2⟩
  have : ((pairBoundaryNodes3D slaves masters tol idx).map fun pr => pr.1.label) =
      (((pairLoop tol idx.1 idx.2 slaves masters).map fun pr => pr.1).map
        Node.label) := by
    rw [List.map_map]
    rfl
  rw [this]
  exact (h3.map Node.label).nodup hs

/-- Witness for C5: one slave at the origin and one master at in-plane
distance `sqrt 0.5 < 2` pair up, satisfying all three invariants. -/
theorem C5_pairing_invariants_witness :
    (pairBoundaryNodes3D [⟨0, ((0 : ℝ), (0 : ℝ), (0 : ℝ))⟩]
        [⟨1, ((0 : ℝ), (0.5 : ℝ), (0.5 : ℝ))⟩] 2 (1, 2)).length ≤ min 1 1 ∧
    planarDist ⟨0, ((0 : ℝ), (0 : ℝ), (0 : ℝ))⟩
      ⟨1, ((0 : ℝ), (0.5 : ℝ), (0.5 : ℝ))⟩ 1 2 < 2 := by
  have hd : planarDist ⟨0, ((0 : ℝ), (0 : ℝ), (0 : ℝ))⟩
      ⟨1, ((0 : ℝ), (0.5 : ℝ), (0.5 : ℝ))⟩ 1 2 = Real.sqrt 0.5 := by
    unfold planarDist Node.coord
    norm_num
  have hlt : Real.sqrt 0.5 < 2 := by
    rw [show (2 : ℝ) = Real.sqrt 4 by
      rw [show (4 : ℝ) = 2 ^ 2 by norm_num, Real.sqrt_sq (by norm_num : (0:ℝ) ≤ 2)]]
    exact Real.sqrt_lt_sqrt (by norm_num) (by norm_num)
  have hfb : findBest ⟨0, ((0 : ℝ), (0 : ℝ), (0 : ℝ))⟩
      [⟨1, ((0 : ℝ), (0.5 : ℝ), (0.5 : ℝ))⟩] 2 1 2 =
      some (⟨1, ((0 : ℝ), (0.5 : ℝ), (0.5 : ℝ))⟩,
        planarDist ⟨0, ((0 : ℝ), (0 : ℝ), (0 : ℝ))⟩
          ⟨1, ((0 : ℝ), (0.5 : ℝ), (0.5 : ℝ))⟩ 1 2) := by
    unfold findBest
    rw [List.foldl_cons, List.foldl_nil]
    show (if planarDist ⟨0, ((0 : ℝ), (0 : ℝ), (0 : ℝ))⟩
        ⟨1, ((0 : ℝ), (0.5 : ℝ), (0.5 : ℝ))⟩ 1 2 < 2 then _ else none) = _
    rw [if_pos (by rw [hd]; exact hlt)]
  have hps : pairBoundaryNodes3D [⟨0, ((0 : ℝ), (0 : ℝ), (0 : ℝ))⟩]
      [⟨1, ((0 : ℝ), (0.5 : ℝ), (0.5 : ℝ))⟩] 2 (1, 2) =
      [(⟨0, ((0 : ℝ), (0 : ℝ), (0 : ℝ))⟩, ⟨1, ((0 : ℝ), (0.5 : ℝ), (0.5 : ℝ))⟩)] := by
    unfold pairBoundaryNodes3D
    rw [pairLoop, hfb]
    rfl
  have h := C5_pairing_invariants [⟨0, ((0 : ℝ), (0 : ℝ), (0 : ℝ))⟩]
    [⟨1, ((0 : ℝ), (0.5 : ℝ), (0.5 : ℝ))⟩] 2 (1, 2) (by simp) (by simp)
  refine ⟨h.1, ?_⟩
  refine h.2.2.2
    (⟨0, ((0 : ℝ), (0 : ℝ), (0 : ℝ))⟩, ⟨1, ((0 : ℝ), (0.5 : ℝ), (0.5 : ℝ))⟩) ?_
  rw [hps]
  exact List.mem_singleton_self _

theorem classifyCells_eq_cons (cells : List Region) (fibers : List (ℝ × ℝ))
    (W H r vol : ℝ) (main : Region) (rest : List Region)
    (hsort : sortVolDesc cells = main :: rest) :
    classifyCellsImproved cells fibers W H r vol =
      (if rest.length < (buildAllFiberCenters3D fibers W H r).length then none
       else if rest.length = (buildAllFiberCenters3D fibers W H r).length then
         some (rest, [main])
       else
         match classifyLoop (buildAllFiberCenters3D fibers W H r) r rest with
         | none => none
         | some (fs, ms) => some (fs, main :: ms)) := by
  unfold classifyCellsImproved
  rw [hsort]

/-- Claim C6: with fewer remaining (non-primary) regions than mirrored
centers the Classifier fails fatally; with exactly equal counts it
skips the per-region centroid-distance computation entirely — the
result labels all remaining regions fiber regardless of their
centroids (even absent ones, which the general branch would treat as
fatal). -/
theorem C6_classifier_count_branches (cells : List Region)
    (fibers : List (ℝ × ℝ)) (W H r vol : ℝ) (main : Region)
    (rest : List Region) (hsort : sortVolDesc cells = main :: rest) :
    (rest.length < (buildAllFiberCenters3D fibers W H r).length →
      classifyCellsImproved cells fibers W H r vol = none) ∧
    (rest.length = (buildAllFiberCenters3D fibers W H r).length →
      classifyCellsImproved cells fibers W H r vol = some (rest, [main])) := by
  rw [classifyCells_eq_cons cells fibers W H r vol main rest hsort]
  constructor
  · intro hlt
    rw [if_pos hlt]
  · intro heq
    rw [if_neg (by rw [heq]; exact lt_irrefl _), if_pos heq]

/-- Witness for C6: two regions (volumes `2 > 1`, both with no
centroid) and one interior fiber center — the remaining-region count
equals the mirror count, so the single remaining region is labeled
fiber without any centroid being consulted. -/
theorem C6_classifier_count_branches_witness :
    classifyCellsImproved [⟨2, none⟩, ⟨1, none⟩] [((5 : ℝ), (5 : ℝ))] 10 10 1 1000 =
      some ([⟨1, none⟩], [⟨2, none⟩]) := by
  have hsort : sortVolDesc [⟨2, none⟩, ⟨1, none⟩] =
      (⟨2, none⟩ : Region) :: [⟨1, none⟩] := by
    unfold sortVolDesc
    rw [List.foldr_cons, List.foldr_cons, List.foldr_nil]
    norm_num [insertVolDesc]
  have hcand : mirrorCandidates 10 10 1 ((5 : ℝ), (5 : ℝ)) = [((5 : ℝ), (5 : ℝ))] := by
    norm_num [mirrorCandidates]
  have hmirror : buildAllFiberCenters3D [((5 : ℝ), (5 : ℝ))] 10 10 1 =
      [((5 : ℝ), (5 : ℝ))] := by
    unfold buildAllFiberCenters3D
    rw [List.flatMap_singleton, hcand, dedupLoop, if_neg (by simp)]
    rfl
  refine (C6_classifier_count_branches [⟨2, none⟩, ⟨1, none⟩]
    [((5 : ℝ), (5 : ℝ))] 10 10 1 1000 ⟨2, none⟩ [⟨1, none⟩] hsort).2 ?_
  rw [hmirror]
  rfl

/-- Claim C2 as amended: the invalid-configuration error fires exactly
on the source's own condition — a *single* fiber's cross-section area at
least the domain area (with a nonzero computed fiber count, since the
zero-count branch is checked first). -/
theorem C2_single_fiber_area_gate (Vf W H r : ℝ)
    (hc : fiberCountOf Vf W H r ≠ 0) (ha : W * H ≤ fiberAreaOf r) :
    configGate Vf W H r = ConfigGate.invalidConfig := by
  unfold configGate
  rw [if_neg hc, if_pos ha]

/-- Witness for the amended C2: `target_Vf = 2` on a unit domain with
unit fiber radius has fiber count `1` and fiber area `pi ≥ 1`, so the
gate reports the invalid configuration. -/
theorem C2_single_fiber_area_gate_witness :
    configGate 2 1 1 1 = ConfigGate.invalidConfig := by
  have hπ : (0 : ℝ) < Real.pi := Real.pi_pos
  refine C2_single_fiber_area_gate 2 1 1 1 ?_ ?_
  · have hx : (2 : ℝ) * (1 * 1) / fiberAreaOf 1 = 2 / Real.pi := by
      unfold fiberAreaOf; norm_num
    unfold fiberCountOf
    rw [hx]
    have h1 : pyRound (2 / Real.pi) = 1 := by
      refine pyRound_eq_of_bounds _ 1 (by positivity) ?_ ?_
      · have h : (1 / 2 : ℝ) ≤ 2 / Real.pi := by
          rw [le_div_iff₀ hπ]
          nlinarith [Real.pi_lt_d6]
        push_cast
        linarith
      · have h : 2 / Real.pi < (3 / 2 : ℝ) := by
          rw [div_lt_iff₀ hπ]
          nlinarith [Real.pi_gt_d6]
        push_cast
        linarith
    rw [h1]
    decide
  · unfold fiberAreaOf
    nlinarith [Real.pi_gt_d6]

end RVE
